import Mathlib

/-!
# Verification of the Dhivehi ZType gameplay core

Shallow embedding of the gameplay/input coordination engine of the
`dhivehi-ztype` typing game: the Thaana text utilities (`src/utils/thaana.js`),
the enemy entity (`src/game/Enemy.js`), the player (`src/game/Player.js`),
the input handler (`src/game/InputHandler.js`), the word source
(`src/data/words.js`) and the main game loop (`src/game/Game.js`).

Modelling conventions:
* JS strings are lists of Unicode code points (`Str := List Nat`); all text
  handled by the game lies in the BMP so UTF-16 units and code points agree.
* JS numbers are modelled as rationals (`ℚ`); integer counters as `Nat`/`Int`.
* `String.prototype.normalize('NFC')` is a platform builtin.  It is modelled
  by the canonical decompose-then-recompose algorithm over a concrete
  character table: Thaana block characters (U+0780–U+07BF) have no canonical
  decompositions and canonical combining class 0, so they are fixed points,
  and the table carries one representative Latin canonical pair
  (U+00C1 = U+0041 + U+0301) to exercise composition.  All characters in the
  table have combining class 0 except U+0301, so the canonical-reordering
  pass is the identity and is omitted.
* Side-effect calls into the audio collaborator (`SoundManager`,
  `Game.playSound`) are modelled as an emitted list of `Cue` values.
* Purely visual state (pulse phases, shake offsets, images, colours, the
  bullet list and particle system) and DOM plumbing are omitted; they are
  never read by the game logic.
* Wall-clock reads (`Date.now()`) and `Math.random()` draws are supplied as
  explicit arguments (an `Oracle`), making every operation a computable
  function; the nondeterministic step relation quantifies over them.
-/

/-- JS strings as lists of Unicode code points. -/
abbrev Str := List Nat

/-- The code points removed by `String.prototype.trim` (ECMAScript WhiteSpace
and LineTerminator). -/
def isJsWs (c : Nat) : Bool :=
  c = 0x9 ∨ c = 0xA ∨ c = 0xB ∨ c = 0xC ∨ c = 0xD ∨ c = 0x20 ∨ c = 0xA0 ∨
  c = 0x1680 ∨ (0x2000 ≤ c ∧ c ≤ 0x200A) ∨ c = 0x2028 ∨ c = 0x2029 ∨
  c = 0x202F ∨ c = 0x205F ∨ c = 0x3000 ∨ c = 0xFEFF

/-- `String.prototype.trim`: strip leading and trailing whitespace
(`List.rdropWhile p l` is `(l.reverse.dropWhile p).reverse`). -/
def jsTrim (s : Str) : Str :=
  List.rdropWhile isJsWs (s.dropWhile isJsWs)

/-- Canonical decomposition of one character.  Thaana characters and all
other characters in the modelled table are their own decompositions; the
representative precomposed character U+00C1 decomposes to U+0041 U+0301. -/
def decompChar (c : Nat) : List Nat :=
  if c = 0xC1 then [0x41, 0x301] else [c]

/-- Full canonical decomposition of a string. -/
def decompose (s : Str) : Str := s.flatMap decompChar

/-- Primary composite of a pair, if any (the inverse of `decompChar`). -/
def composePair (a b : Nat) : Option Nat :=
  if a = 0x41 ∧ b = 0x301 then some 0xC1 else none

/-- Canonical recomposition: greedily combine the current starter with the
following character when the table allows it. -/
def recomposeAux (a : Nat) : List Nat → List Nat
  | [] => [a]
  | b :: t =>
    match composePair a b with
    | some c => recomposeAux c t
    | none => a :: recomposeAux b t

/-- Canonical recomposition of a decomposed string. -/
def recompose : Str → Str
  | [] => []
  | a :: t => recomposeAux a t

/-- Model of `String.prototype.normalize('NFC')`. -/
def nfc (s : Str) : Str := recompose (decompose s)

/-- `normalizeThaana` from `src/utils/thaana.js`:
`if (!str) return ''; return str.trim().normalize('NFC');`. -/
def normalizeThaana (s : Str) : Str :=
  if s = [] then [] else nfc (jsTrim s)

/-- `Math.round`: round half toward positive infinity. -/
def jsRound (q : ℚ) : Int := ⌊q + 1/2⌋

/-! ## Basic facts about the text model -/

theorem recomposeAux_ne_nil (a : Nat) (l : List Nat) : recomposeAux a l ≠ [] := by
  induction l generalizing a with
  | nil => simp [recomposeAux]
  | cons b t ih =>
    simp only [recomposeAux]
    cases h : composePair a b with
    | some c => exact ih c
    | none => simp

/-- Characters produced by `decompose` are never the precomposed U+00C1. -/
theorem decompose_no_composite (s : Str) : ∀ c ∈ decompose s, c ≠ 0xC1 := by
  intro c hc
  simp only [decompose, List.mem_flatMap] at hc
  obtain ⟨a, _, hmem⟩ := hc
  by_cases h : a = 0xC1 <;> simp [decompChar, h] at hmem <;> omega

/-- `decompose` fixes fully decomposed strings. -/
theorem decompose_fixed (d : Str) (h : ∀ c ∈ d, c ≠ 0xC1) :
    decompose d = d := by
  induction d with
  | nil => rfl
  | cons a t ih =>
    have ha : a ≠ 0xC1 := h a (List.mem_cons_self ..)
    have ht : decompose t = t := ih (fun c hc => h c (List.mem_cons_of_mem _ hc))
    simp [decompose, List.flatMap_cons, decompChar, ha] at ht ⊢
    exact ht

/-- Recomposition consumes exactly what composition would re-expand: on a
fully decomposed input, decomposing the recomposition gives back the input. -/
theorem decompose_recomposeAux (l : List Nat) (hl : ∀ c ∈ l, c ≠ 0xC1) :
    ∀ a, decompose (recomposeAux a l) = decompChar a ++ l := by
  induction l with
  | nil => intro a; simp [recomposeAux, decompose]
  | cons b t ih =>
    intro a
    have hb : b ≠ 0xC1 := hl b (List.mem_cons_self ..)
    have ht : ∀ c ∈ t, c ≠ 0xC1 := fun c hc => hl c (List.mem_cons_of_mem _ hc)
    simp only [recomposeAux]
    cases hco : composePair a b with
    | some c =>
      have : a = 0x41 ∧ b = 0x301 ∧ c = 0xC1 := by
        by_cases h : a = 0x41 ∧ b = 0x301
        · refine ⟨h.1, h.2, ?_⟩
          simp [composePair, h] at hco
          omega
        · simp [composePair, h] at hco
      obtain ⟨ha, hb', hc⟩ := this
      rw [ih ht c]
      subst ha hb' hc
      simp [decompChar]
    | none =>
      have : decompose (a :: recomposeAux b t) =
          decompChar a ++ decompose (recomposeAux b t) := by
        simp [decompose, List.flatMap_cons]
      rw [this, ih ht b]
      simp [decompChar, hb]

/-- Whitespace status of an optional character (`none` counts as non-space). -/
def wsStat (o : Option Nat) : Bool := (o.map isJsWs).getD false

/-- A string with no leading or trailing whitespace. -/
def noEdgeWs (l : Str) : Prop :=
  wsStat l.head? = false ∧ wsStat l.getLast? = false

theorem decompChar_ne_nil (a : Nat) : decompChar a ≠ [] := by
  by_cases h : a = 0xC1 <;> simp [decompChar, h]

theorem decompose_eq_nil_iff (s : Str) : decompose s = [] ↔ s = [] := by
  cases s with
  | nil => simp [decompose]
  | cons a t =>
    simp only [decompose, List.flatMap_cons, List.append_eq_nil, iff_false,
      List.cons_ne_nil, ne_eq, not_false_iff]
    intro h
    exact decompChar_ne_nil a h.1

theorem wsStat_head?_decompose (s : Str) :
    wsStat (decompose s).head? = wsStat s.head? := by
  cases s with
  | nil => simp [decompose]
  | cons a t =>
    by_cases h : a = 0xC1 <;>
      simp [decompose, List.flatMap_cons, decompChar, h, wsStat] <;>
      subst h <;> decide

theorem wsStat_getLast?_decompose (s : Str) :
    wsStat (decompose s).getLast? = wsStat s.getLast? := by
  induction s using List.reverseRecOn with
  | nil => simp [decompose]
  | append_singleton t a _ =>
    have hd : decompose (t ++ [a]) = decompose t ++ decompChar a := by
      simp [decompose]
    rw [hd, List.getLast?_append_of_ne_nil (decompose t) (decompChar_ne_nil a),
      List.getLast?_append_of_ne_nil t (List.cons_ne_nil a [])]
    by_cases h : a = 0xC1 <;> simp [decompChar, h, wsStat] <;> subst h <;> decide

theorem composePair_elim {a b c : Nat} (h : composePair a b = some c) :
    a = 0x41 ∧ b = 0x301 ∧ c = 0xC1 := by
  by_cases hab : a = 0x41 ∧ b = 0x301
  · refine ⟨hab.1, hab.2, ?_⟩
    simp [composePair, hab] at h
    omega
  · simp [composePair, hab] at h

theorem wsStat_head?_recomposeAux (l : List Nat) :
    ∀ a, wsStat (recomposeAux a l).head? = isJsWs a := by
  induction l with
  | nil => intro a; simp [recomposeAux, wsStat]
  | cons b t ih =>
    intro a
    simp only [recomposeAux]
    cases hco : composePair a b with
    | some c =>
      obtain ⟨ha, _, hc⟩ := composePair_elim hco
      rw [ih c, ha, hc]
      decide
    | none => simp [wsStat]

theorem wsStat_getLast?_recomposeAux (l : List Nat) :
    ∀ a, wsStat (recomposeAux a l).getLast? = wsStat ((a :: l).getLast?) := by
  induction l with
  | nil => intro a; simp [recomposeAux]
  | cons b t ih =>
    intro a
    simp only [recomposeAux]
    cases hco : composePair a b with
    | some c =>
      obtain ⟨_, hb, hc⟩ := composePair_elim hco
      rw [ih c]
      cases t with
      | nil => subst hb hc; simp [wsStat]; decide
      | cons x u => simp [List.getLast?_cons_cons]
    | none =>
      have hne := recomposeAux_ne_nil b t
      cases hrb : recomposeAux b t with
      | nil => exact absurd hrb hne
      | cons y u =>
        rw [List.getLast?_cons_cons, ← hrb, ih b]
        cases t with
        | nil => simp
        | cons x v => simp [List.getLast?_cons_cons]

theorem noEdgeWs_nfc {l : Str} (h : noEdgeWs l) : noEdgeWs (nfc l) := by
  obtain ⟨h1, h2⟩ := h
  constructor
  · show wsStat (recompose (decompose l)).head? = false
    cases hd : decompose l with
    | nil => simp [recompose, wsStat]
    | cons a t =>
      show wsStat (recomposeAux a t).head? = false
      rw [wsStat_head?_recomposeAux]
      have hds := wsStat_head?_decompose l
      rw [hd, h1] at hds
      simpa [wsStat] using hds
  · show wsStat (recompose (decompose l)).getLast? = false
    cases hd : decompose l with
    | nil => simp [recompose, wsStat]
    | cons a t =>
      show wsStat (recomposeAux a t).getLast? = false
      rw [wsStat_getLast?_recomposeAux, ← hd]
      rw [wsStat_getLast?_decompose]
      exact h2

theorem nfc_eq_nil_iff (s : Str) : nfc s = [] ↔ s = [] := by
  unfold nfc
  cases hd : decompose s with
  | nil => simpa [recompose] using (decompose_eq_nil_iff s).mp hd
  | cons a t =>
    have h1 : recompose (a :: t) ≠ [] := recomposeAux_ne_nil a t
    have h2 : s ≠ [] := by
      intro hs; rw [hs] at hd; simp [decompose] at hd
    simp [h1, h2]

theorem noEdgeWs_jsTrim (s : Str) : noEdgeWs (jsTrim s) := by
  constructor
  · cases hh : (jsTrim s).head? with
    | none => simp [wsStat]
    | some c =>
      have hne : jsTrim s ≠ [] := by
        intro h; rw [h] at hh; simp at hh
      have hpre : jsTrim s <+: s.dropWhile isJsWs := List.rdropWhile_prefix _ _
      obtain ⟨t, ht⟩ := hpre
      have hdne : s.dropWhile isJsWs ≠ [] := by
        rw [← ht]; simp [hne]
      have hhead : (s.dropWhile isJsWs).head? = some c := by
        rw [← ht, List.head?_append, hh]; rfl
      have hnot := List.head_dropWhile_not isJsWs s hdne
      have : (s.dropWhile isJsWs).head hdne = c := by
        rw [← Option.some_inj, ← List.head?_eq_head]
        exact hhead
      rw [this] at hnot
      simpa [wsStat] using hnot
  · cases hh : (jsTrim s).getLast? with
    | none => simp [wsStat]
    | some c =>
      have hne : jsTrim s ≠ [] := by
        intro h; rw [h] at hh; simp at hh
      have hnot := List.rdropWhile_last_not isJsWs (s.dropWhile isJsWs) (show List.rdropWhile isJsWs (s.dropWhile isJsWs) ≠ [] from hne)
      have : (jsTrim s).getLast hne = c := by
        rw [← Option.some_inj, ← List.getLast?_eq_getLast]
        exact hh
      rw [show (List.rdropWhile isJsWs (s.dropWhile isJsWs)).getLast hne = (jsTrim s).getLast hne from rfl, this] at hnot
      simpa [wsStat] using hnot

theorem jsTrim_eq_self {l : Str} (h : noEdgeWs l) : jsTrim l = l := by
  obtain ⟨h1, h2⟩ := h
  have hdrop : l.dropWhile isJsWs = l := by
    rw [List.dropWhile_eq_self_iff]
    intro hl
    have : l.head? = some (l.get ⟨0, hl⟩) := by
      cases l with
      | nil => simp at hl
      | cons a t => rfl
    rw [this] at h1
    simpa [wsStat] using h1
  show List.rdropWhile isJsWs (l.dropWhile isJsWs) = l
  rw [hdrop, List.rdropWhile_eq_self_iff]
  intro hl
  have : l.getLast? = some (l.getLast hl) := List.getLast?_eq_getLast l hl
  rw [this] at h2
  simpa [wsStat] using h2

/-- The NFC model is idempotent. -/
theorem nfc_idem (s : Str) : nfc (nfc s) = nfc s := by
  unfold nfc
  congr 1
  cases hd : decompose s with
  | nil => simp [recompose, decompose]
  | cons a t =>
    have hall : ∀ c ∈ decompose s, c ≠ 0xC1 := decompose_no_composite s
    rw [hd] at hall
    have ha : a ≠ 0xC1 := hall a (List.mem_cons_self ..)
    have ht : ∀ c ∈ t, c ≠ 0xC1 := fun c hc => hall c (List.mem_cons_of_mem _ hc)
    show decompose (recomposeAux a t) = a :: t
    rw [decompose_recomposeAux t ht a]
    simp [decompChar, ha]

/-- `normalizeThaana` is idempotent (trim then NFC, applied twice). -/
theorem normalizeThaana_idem_aux (s : Str) :
    normalizeThaana (normalizeThaana s) = normalizeThaana s := by
  by_cases hs : s = []
  · subst hs; rfl
  · have h1 : normalizeThaana s = nfc (jsTrim s) := by simp [normalizeThaana, hs]
    rw [h1]
    by_cases ht : nfc (jsTrim s) = []
    · rw [ht]; rfl
    · have h2 : normalizeThaana (nfc (jsTrim s)) = nfc (jsTrim (nfc (jsTrim s))) := by
        simp [normalizeThaana, ht]
      rw [h2, jsTrim_eq_self (noEdgeWs_nfc (noEdgeWs_jsTrim s)), nfc_idem]

/-- Strings consisting only of Thaana-block characters (U+0780–U+07BF). -/
def ThaanaStr (s : Str) : Prop := ∀ c ∈ s, 0x780 ≤ c ∧ c ≤ 0x7BF

theorem isJsWs_eq_false_of_thaana {c : Nat} (h1 : 0x780 ≤ c) (h2 : c ≤ 0x7BF) :
    isJsWs c = false := by
  simp only [isJsWs, decide_eq_false_iff_not]
  omega

theorem recomposeAux_eq_self {l : List Nat} (hl : ∀ c ∈ l, c ≠ 0x41) :
    ∀ a, a ≠ 0x41 → recomposeAux a l = a :: l := by
  induction l with
  | nil => intro a _; rfl
  | cons b t ih =>
    intro a ha
    have hb : b ≠ 0x41 := hl b (List.mem_cons_self ..)
    have ht : ∀ c ∈ t, c ≠ 0x41 := fun c hc => hl c (List.mem_cons_of_mem _ hc)
    simp only [recomposeAux]
    cases hco : composePair a b with
    | some c =>
      obtain ⟨ha', _, _⟩ := composePair_elim hco
      exact absurd ha' ha
    | none => rw [ih ht b hb]

/-- `normalizeThaana` fixes pure Thaana strings: Thaana characters are not
whitespace, have no canonical decomposition, and never compose. -/
theorem normalizeThaana_of_thaana {s : Str} (h : ThaanaStr s) :
    normalizeThaana s = s := by
  by_cases hs : s = []
  · subst hs; rfl
  · have hws : ∀ c ∈ s, isJsWs c = false := fun c hc =>
      isJsWs_eq_false_of_thaana (h c hc).1 (h c hc).2
    have htrim : jsTrim s = s := by
      apply jsTrim_eq_self
      constructor
      · cases hh : s.head? with
        | none => simp [wsStat]
        | some c =>
          have : c ∈ s := by
            cases s with
            | nil => simp at hh
            | cons a t =>
              simp only [List.head?_cons, Option.some_inj] at hh
              exact hh ▸ List.mem_cons_self ..
          simp [wsStat, hws c this]
      · cases hh : s.getLast? with
        | none => simp [wsStat]
        | some c =>
          have : c ∈ s := List.mem_of_getLast?_eq_some hh
          simp [wsStat, hws c this]
    have hdec : decompose s = s := decompose_fixed s (fun c hc => by
      have := h c hc; omega)
    have hrec : recompose s = s := by
      cases hs2 : s with
      | nil => rfl
      | cons a t =>
        have ha : a ≠ 0x41 := by
          have := h a (hs2 ▸ List.mem_cons_self ..); omega
        have ht : ∀ c ∈ t, c ≠ 0x41 := fun c hc => by
          have := h c (hs2 ▸ List.mem_cons_of_mem _ hc); omega
        exact recomposeAux_eq_self ht a ha
    simp [normalizeThaana, hs, htrim, nfc, hdec, hrec]

/-! ## Data model

Embedded from `src/game/Enemy.js`, `src/game/Player.js`, `src/game/Game.js`
and `src/game/InputHandler.js`.  Purely visual fields (pulse phase, shake
offsets, images, colours) are omitted. -/

/-- Discrete audio cues sent to the sound collaborator.  `shotgun` and
`empty` are `SoundManager.playShotgun/playEmpty`; the rest are
`Game.playSound` types. -/
inductive Cue where
  | shotgun | empty | hit | damage | wave | gameover
  deriving DecidableEq, Repr

/-- `Enemy` (`src/game/Enemy.js` constructor). -/
structure Enemy where
  word : Str
  x : ℚ
  y : ℚ
  speed : ℚ
  baseSpeed : ℚ
  targeted : Bool
  health : Int
  maxHealth : Int
  alive : Bool
  dying : Bool
  size : ℚ
  typedChars : Nat
  deathTimer : ℚ
  deathDuration : ℚ
  isHit : Bool
  hitTimer : ℚ
  hitDuration : ℚ
  deriving DecidableEq, Repr

/-- `new Enemy(word, x, y, speed, player)`: health starts at `word.length`. -/
def mkEnemy (word : Str) (x y speed : ℚ) : Enemy :=
  { word := word, x := x, y := y, speed := speed, baseSpeed := speed
    targeted := false, health := word.length, maxHealth := word.length
    alive := true, dying := false, size := 15, typedChars := 0
    deathTimer := 0, deathDuration := 3/10, isHit := false
    hitTimer := 0, hitDuration := 1/5 }

/-- `Enemy.setTargeted`: clearing the flag resets the typed counter. -/
def Enemy.setTargeted (e : Enemy) (t : Bool) : Enemy :=
  if t then { e with targeted := t } else { e with targeted := t, typedChars := 0 }

/-- `Enemy.setTypedChars`. -/
def Enemy.setTypedChars (e : Enemy) (count : Nat) : Enemy :=
  { e with typedChars := count }

/-- `Enemy.destroy`: enter the dying state (idempotent). -/
def Enemy.destroy (e : Enemy) : Enemy :=
  if e.dying then e else { e with dying := true, deathTimer := 0 }

/-- `Enemy.hit(damage)`: lose health, flash, slow to 70% of base speed,
and die when health reaches 0. -/
def Enemy.hit (e : Enemy) (damage : Int) : Enemy :=
  let e := { e with health := e.health - damage, isHit := true, hitTimer := 0,
                    speed := e.baseSpeed * (7/10) }
  if e.health ≤ 0 then e.destroy else e

/-- `Enemy.isOffScreen(maxY)`. -/
def Enemy.isOffScreen (e : Enemy) (maxY : ℚ) : Bool := e.y > maxY

/-- `Player` (`src/game/Player.js`). -/
structure Player where
  x : ℚ
  y : ℚ
  size : ℚ
  lives : Int
  maxLives : Int
  deriving DecidableEq, Repr

/-- `new Player(x, y)`. -/
def mkPlayer (x y : ℚ) : Player :=
  { x := x, y := y, size := 25, lives := 3, maxLives := 3 }

/-- `Player.takeDamage`: lose a life, clamped at zero. -/
def Player.takeDamage (p : Player) : Player :=
  let l := p.lives - 1
  { p with lives := if l < 0 then 0 else l }

/-- `Player.isAlive`. -/
def Player.isAlive (p : Player) : Bool := p.lives > 0

/-- The frozen per-wave statistics snapshot stored by `showWaveClear`. -/
structure WaveStats where
  wave : Nat
  score : Int
  wpm : Int
  accuracy : Int
  correctInputs : Nat
  incorrectInputs : Nat
  deriving DecidableEq, Repr

/-- `Game.totalStats`: cumulative statistics across waves. -/
structure TotalStats where
  totalWavesCompleted : Nat
  totalScore : Int
  totalCorrectInputs : Nat
  totalIncorrectInputs : Nat
  totalPlayTime : ℚ
  deriving DecidableEq, Repr

/-- The combined mutable state of `Game` and its `InputHandler`.
`currentInput`, `lastInputLength` and the three statistics counters live on
the `InputHandler`; the rest on `Game`. -/
structure GameState where
  score : Int
  wave : Nat
  gameOver : Bool
  paused : Bool
  waveClear : Bool
  waveStats : Option WaveStats
  spawnTimer : ℚ
  spawnInterval : ℚ
  waveStartTime : ℚ
  enemiesSpawnedThisWave : Nat
  totalEnemiesThisWave : Nat
  waveClearTimer : ℚ
  waveClearDuration : ℚ
  totalStats : TotalStats
  player : Player
  enemies : List Enemy
  currentInput : Str
  lastInputLength : Nat
  correctInputs : Nat
  incorrectInputs : Nat
  totalCharactersTyped : Nat
  deriving DecidableEq, Repr

/-- Fixed environment: canvas logical size (`Game.width/height` after
`setupCanvas`), the browser's `window.innerHeight`, and the word pool.
The word pool models `src/data/words.js`: the contents of the bundled
`words/*.txt` files are build-time assets that are not part of the source
tree, so `wordsForWave` is kept abstract; `src/data/words.js` guarantees a
fallback list (`fallbackWords`) when no file is loaded. -/
structure Env where
  width : ℚ
  height : ℚ
  innerHeight : ℚ
  wordsForWave : Nat → List Str

/-- The in-source fallback word list of `src/data/words.js`
(`'ދިވެހި', 'ރާއްޖެ', 'ބަހުރުވަ', 'ކުޑަ', 'ބޮޑު', 'ރަނގަޅު', 'ފަހުން', 'މިހާރު', 'ކުރިން', 'މާލެ'`). -/
def fallbackWords : List Str :=
  [[0x78B, 0x7A8, 0x788, 0x7AC, 0x780, 0x7A8],
   [0x783, 0x7A7, 0x787, 0x7B0, 0x796, 0x7AC],
   [0x784, 0x7A6, 0x780, 0x7AA, 0x783, 0x7AA, 0x788, 0x7A6],
   [0x786, 0x7AA, 0x791, 0x7A6],
   [0x784, 0x7AE, 0x791, 0x7AA],
   [0x783, 0x7A6, 0x782, 0x78E, 0x7A6, 0x785, 0x7AA],
   [0x78A, 0x7A6, 0x780, 0x7AA, 0x782, 0x7B0],
   [0x789, 0x7A8, 0x780, 0x7A7, 0x783, 0x7AA],
   [0x786, 0x7AA, 0x783, 0x7A8, 0x782, 0x7B0],
   [0x789, 0x7A7, 0x78D, 0x7AC]]

/-- `getRandomWord(wave, maxLength)` from `src/data/words.js`: filter by
length when a cap is given, falling back to the unfiltered pool when the
filter empties it; `idx` stands for the `Math.floor(Math.random()*len)`
draw. -/
def getRandomWord (env : Env) (wave : Nat) (maxLength : Option Nat) (idx : Nat) : Str :=
  let wordList := env.wordsForWave wave
  let wordList :=
    match maxLength with
    | none => wordList
    | some m =>
      let filtered := wordList.filter (fun (w : Str) => w.length ≤ m)
      if filtered.length > 0 then filtered else wordList
  wordList.getD idx []

/-! ## InputHandler (`src/game/InputHandler.js`)

The handler owns `currentInput`, `lastInputLength` and the statistics
counters but mutates the game's enemies and score, so its methods are
functions on the combined `GameState`.  Each returns the emitted audio cues
in call order. -/

/-- `Game.clearAllTargets`. -/
def Game.clearAllTargets (s : GameState) : GameState :=
  { s with enemies := s.enemies.map (fun e => e.setTargeted false) }

/-- `InputHandler.clear`: empty the buffer (and the DOM field) and clear all
targets. -/
def InputHandler.clear (s : GameState) : GameState :=
  Game.clearAllTargets { s with currentInput := [], lastInputLength := 0 }

/-- `Game.addScore`. -/
def Game.addScore (s : GameState) (points : Int) : GameState :=
  { s with score := s.score + points }

/-- The scanning loop of `InputHandler.checkMatches`: walk the enemies in
order; the first prefix match sets `foundMatch`/`matchedEnemy`, and an exact
match overrides `matchedEnemy` and breaks. -/
def scanGo (inp : Str) : List Enemy → Nat → Bool → Option Nat → Bool × Option Nat
  | [], _, found, matched => (found, matched)
  | e :: rest, j, found, matched =>
    let nw := normalizeThaana e.word
    if inp.isPrefixOf nw then
      let fm := if !found then (true, some j) else (found, matched)
      if inp = nw then (fm.1, some j)
      else scanGo inp rest (j + 1) fm.1 fm.2
    else scanGo inp rest (j + 1) found matched

/-- `InputHandler.handleCompleteMatch`, applied to the enemy at `idx`:
destroy it, award `word.length * 10` points, clear the buffer and all
targets, and play the hit sound. -/
def handleCompleteMatch (s : GameState) (idx : Nat) : GameState × List Cue :=
  match s.enemies[idx]? with
  | none => (s, [])
  | some e =>
    let s := { s with enemies := s.enemies.set idx e.destroy }
    let s := Game.addScore s ((e.word.length : Int) * 10)
    (InputHandler.clear s, [Cue.hit])

/-- One iteration of the targeting loop at the end of `checkMatches`: the
matched enemy is targeted and gets its typed count (and completes on exact
equality); every other enemy is untargeted. -/
def targetStep (nInput : Str) (matched : Option Nat) (s : GameState) (idx : Nat) :
    GameState × List Cue :=
  match s.enemies[idx]? with
  | none => (s, [])
  | some e =>
    if matched = some idx then
      let e1 := (e.setTargeted true).setTypedChars nInput.length
      let s := { s with enemies := s.enemies.set idx e1 }
      if nInput = normalizeThaana e1.word then handleCompleteMatch s idx
      else (s, [])
    else
      ({ s with enemies := s.enemies.set idx (e.setTargeted false) }, [])

/-- The targeting loop of `checkMatches` over a list of indices. -/
def targetLoop (nInput : Str) (matched : Option Nat) :
    GameState → List Nat → GameState × List Cue
  | s, [] => (s, [])
  | s, i :: rest =>
    let p1 := targetStep nInput matched s i
    let p2 := targetLoop nInput matched p1.1 rest
    (p2.1, p1.2 ++ p2.2)

/-- `InputHandler.checkMatches`: empty input clears all targets; otherwise
scan for a match (with a shotgun/empty cue when this keystroke is new and no
enemy is locked), then run the targeting loop and record the input length. -/
def checkMatches (s : GameState) : GameState × List Cue :=
  if s.currentInput = [] then
    (Game.clearAllTargets { s with lastInputLength := 0 }, [])
  else
    let nInput := normalizeThaana s.currentInput
    let isNew := s.currentInput.length > s.lastInputLength
    let anyTargeted := s.enemies.any (fun e => e.targeted)
    let fm := scanGo nInput s.enemies 0 false none
    let cues1 : List Cue :=
      if fm.1 ∧ isNew ∧ ¬anyTargeted then [Cue.shotgun] else []
    let cues2 : List Cue :=
      if ¬fm.1 ∧ isNew ∧ ¬anyTargeted then [Cue.empty] else []
    let p := targetLoop nInput fm.2 s (List.range s.enemies.length)
    ({ p.1 with lastInputLength := p.1.currentInput.length }, cues1 ++ cues2 ++ p.2)

/-- `InputHandler.validateAndUpdateInput(newValue)`: shrinking input is
always accepted; with a locked target a grown input is validated against the
locked word only (accept: count, fire, hit, typed count, re-match; reject:
count the error and fully clear); with no lock the new value is accepted and
matched. -/
def validateAndUpdateInput (s : GameState) (newValue : Str) : GameState × List Cue :=
  if newValue.length ≤ s.currentInput.length then
    checkMatches { s with currentInput := newValue }
  else
    match s.enemies.findIdx? (fun e => e.targeted) with
    | some i =>
      match s.enemies[i]? with
      | none => (s, [])
      | some e =>
        let nNew := normalizeThaana newValue
        if nNew.isPrefixOf (normalizeThaana e.word) then
          let s := { s with currentInput := newValue,
                            correctInputs := s.correctInputs + 1,
                            totalCharactersTyped := s.totalCharactersTyped + 1,
                            enemies := s.enemies.set i ((e.hit 1).setTypedChars nNew.length) }
          let p := checkMatches s
          (p.1, Cue.shotgun :: p.2)
        else
          let s := { s with incorrectInputs := s.incorrectInputs + 1,
                            totalCharactersTyped := s.totalCharactersTyped + 1 }
          (InputHandler.clear s, [Cue.empty])
    | none =>
      checkMatches { s with currentInput := newValue }

/-- The accuracy computation of `InputHandler.getStatistics`:
`total > 0 ? Math.round((correct / total) * 100) : 100`. -/
def getStatisticsAccuracy (correct total : Nat) : Int :=
  if total > 0 then jsRound (((correct : ℚ) / (total : ℚ)) * 100) else 100

/-- `InputHandler.resetStatistics`. -/
def InputHandler.resetStatistics (s : GameState) : GameState :=
  { s with correctInputs := 0, incorrectInputs := 0, totalCharactersTyped := 0 }

/-- Feed a sequence of keystrokes: each event's new field value is the
current buffer with one more character appended. -/
def feedChars (s : GameState) (cs : List Nat) : GameState :=
  cs.foldl (fun s c => (validateAndUpdateInput s (s.currentInput ++ [c])).1) s

/-! ## Game loop (`src/game/Game.js`)

`Enemy.update` normalizes the direction vector with `Math.sqrt`; the unit
direction is supplied through an `Oracle` value `dist` (intended to satisfy
`dist^2 = dx^2 + dy^2`), which makes the step computable and exact on the
rational-distance traces used below.  The homing branch is taken exactly
when `distance > 0`, i.e. when `(dx, dy) ≠ (0, 0)`. -/

/-- `Enemy.update(deltaTime)`: dying enemies only run their death timer;
live ones home toward the player (half lateral speed), run the hit-flash
timer (restoring speed when it ends), and despawn below
`window.innerHeight + 100`. -/
def Enemy.update (e : Enemy) (player : Player) (innerHeight dt dist : ℚ) : Enemy :=
  if e.dying then
    let t := e.deathTimer + dt
    if t ≥ e.deathDuration then { e with deathTimer := t, alive := false }
    else { e with deathTimer := t }
  else
    let dx := player.x - e.x
    let dy := player.y - e.y
    let e :=
      if dx = 0 ∧ dy = 0 then e
      else { e with x := e.x + dx / dist * e.speed * dt * (1/2),
                    y := e.y + dy / dist * e.speed * dt }
    let e :=
      if e.isHit then
        let ht := e.hitTimer + dt
        if ht ≥ e.hitDuration then
          { e with isHit := false, hitTimer := 0, speed := e.baseSpeed }
        else { e with hitTimer := ht }
      else e
    if e.y > innerHeight + 100 then { e with alive := false } else e

/-- `Game.checkCollision(enemy, player)`: centre distance below the size
sum; compared on squares, which is equivalent since both sides are
non-negative. -/
def Game.checkCollision (e : Enemy) (p : Player) : Bool :=
  let dx := e.x - p.x
  let dy := e.y - p.y
  let minDistance := e.size + p.size
  dx ^ 2 + dy ^ 2 < minDistance ^ 2

/-- The nondeterministic inputs of one `Game.update` call: the normalizing
distances of each enemy's homing step and the `Math.random` draws of a
potential spawn. -/
structure Oracle where
  dists : Nat → ℚ
  spawnR : ℚ
  spawnIdx : Nat

/-- The body of the enemy loop in `Game.update`, for the enemy at index
`i`: update it; remove it if dead (clearing the input if it was targeted);
otherwise on reaching the bottom (`height + 50`) or colliding with the
player while not dying, damage the player, destroy the enemy and possibly
end the game. -/
def processEnemy (o : Oracle) (env : Env) (dt : ℚ) (s : GameState) (i : Nat) :
    GameState × List Cue :=
  match s.enemies[i]? with
  | none => (s, [])
  | some e0 =>
    let e := e0.update s.player env.innerHeight dt (o.dists i)
    let s := { s with enemies := s.enemies.set i e }
    if ¬ e.alive then
      let s := if e.targeted then InputHandler.clear s else s
      ({ s with enemies := s.enemies.eraseIdx i }, [])
    else if (e.isOffScreen (env.height + 50) ∨ Game.checkCollision e s.player) ∧ ¬ e.dying then
      let s := { s with player := s.player.takeDamage }
      let s := { s with enemies := s.enemies.set i e.destroy }
      if ¬ s.player.isAlive then ({ s with gameOver := true }, [Cue.damage, Cue.gameover])
      else (s, [Cue.damage])
    else (s, [])

/-- The enemy loop of `Game.update`: indices from `enemies.length - 1` down
to `0` (removal by `splice(i, 1)` leaves lower indices untouched). -/
def enemyLoop (o : Oracle) (env : Env) (dt : ℚ) : GameState → Nat → GameState × List Cue
  | s, 0 => (s, [])
  | s, i + 1 =>
    let p1 := processEnemy o env dt s i
    let p2 := enemyLoop o env dt p1.1 i
    (p2.1, p1.2 ++ p2.2)

/-- `Game.getEnemyCountForWave`. -/
def getEnemyCountForWave (wave : Nat) : Nat :=
  if wave = 1 then 4 else if wave = 2 then 6 else if wave = 3 then 8
  else if wave ≤ 5 then 10 else if wave ≤ 8 then 12 else 15

/-- `Game.getSpawnIntervalForWave`. -/
def getSpawnIntervalForWave (wave : Nat) : ℚ :=
  if wave = 1 then 6 else if wave = 2 then 9/2 else if wave = 3 then 7/2
  else if wave ≤ 5 then 3 else if wave ≤ 8 then 5/2 else 2

/-- The per-wave word-length cap of `Game.spawnEnemy`. -/
def spawnMaxLength (wave : Nat) : Option Nat :=
  if wave ≤ 3 then some 5
  else if wave ≤ 6 then some 8
  else if wave ≤ 10 then some 12
  else none

/-- `Game.spawnEnemy`: a fresh enemy at a random x in
`[100, width - 100)` , y = -50, with the wave's speed, pushed at the end of
the list. -/
def Game.spawnEnemy (o : Oracle) (env : Env) (s : GameState) : GameState :=
  let word := getRandomWord env s.wave (spawnMaxLength s.wave) o.spawnIdx
  let x := o.spawnR * (env.width - 200) + 100
  let speed : ℚ :=
    if s.wave = 1 then 20 else if s.wave = 2 then 25
    else 30 + ((s.wave : ℚ) - 2) * 5
  let e := mkEnemy word x (-50) speed
  { s with enemies := s.enemies ++ [e],
           enemiesSpawnedThisWave := s.enemiesSpawnedThisWave + 1 }

/-- The WPM computation of `Game.showWaveClear`:
`waveDurationMinutes > 0 ? Math.round((correct / 5) / waveDurationMinutes) : 0`. -/
def waveWpm (correctInputs : Nat) (waveDurationMs : ℚ) : Int :=
  let waveDurationMinutes := waveDurationMs / 60000
  let words : ℚ := (correctInputs : ℚ) / 5
  if waveDurationMinutes > 0 then jsRound (words / waveDurationMinutes) else 0

/-- `Game.showWaveClear` (`now` is the `Date.now()` read): freeze the wave
statistics, accumulate totals, enter the wave-clear screen and drop all
enemies. -/
def Game.showWaveClear (s : GameState) (now : ℚ) : GameState :=
  let waveDurationMs := now - s.waveStartTime
  let wpm := waveWpm s.correctInputs waveDurationMs
  let accuracy := getStatisticsAccuracy s.correctInputs s.totalCharactersTyped
  { s with
    totalStats :=
      { totalWavesCompleted := s.totalStats.totalWavesCompleted + 1
        totalScore := s.score
        totalCorrectInputs := s.totalStats.totalCorrectInputs + s.correctInputs
        totalIncorrectInputs := s.totalStats.totalIncorrectInputs + s.incorrectInputs
        totalPlayTime := s.totalStats.totalPlayTime + waveDurationMs }
    waveStats := some
      { wave := s.wave, score := s.score, wpm := wpm, accuracy := accuracy
        correctInputs := s.correctInputs, incorrectInputs := s.incorrectInputs }
    waveClear := true
    waveClearTimer := 0
    enemies := [] }

/-- `Game.continueToNextWave`: advance the wave, reset per-wave counters and
statistics; the spawn timer is primed with the previous wave's interval
before the interval is updated. -/
def Game.continueToNextWave (s : GameState) (now : ℚ) : GameState :=
  let s := { s with wave := s.wave + 1, waveStartTime := now }
  let s := { s with enemiesSpawnedThisWave := 0,
                    totalEnemiesThisWave := getEnemyCountForWave s.wave,
                    spawnTimer := s.spawnInterval }
  let s := InputHandler.resetStatistics s
  let s := { s with spawnInterval := getSpawnIntervalForWave s.wave }
  { s with waveClear := false, waveStats := none, waveClearTimer := 0 }

/-- The wave-clear / spawning tail of `Game.update(dt)`: advance the
wave-clear animation (transitioning to the next wave after its duration),
or run the spawn timer, spawn while the wave quota is unmet, and enter the
wave-clear screen once the quota is met and no enemies remain. -/
def Game.updateWave (o : Oracle) (env : Env) (s : GameState) (dt now : ℚ) :
    GameState × List Cue :=
  if s.waveClear then
    let s := { s with waveClearTimer := s.waveClearTimer + dt }
    if s.waveClearTimer < s.waveClearDuration then (s, [])
    else (Game.continueToNextWave s now, [Cue.wave])
  else
    let s := { s with spawnTimer := s.spawnTimer + dt }
    let s :=
      if s.spawnTimer ≥ s.spawnInterval ∧
         s.enemiesSpawnedThisWave < s.totalEnemiesThisWave then
        { (Game.spawnEnemy o env s) with spawnTimer := 0 }
      else s
    if s.enemiesSpawnedThisWave ≥ s.totalEnemiesThisWave ∧ s.enemies.length = 0 then
      (Game.showWaveClear s now, [])
    else (s, [])

/-- `Game.update(dt)` (enemy processing, wave-clear animation, spawning and
wave-completion check; rendering-only work is omitted). -/
def Game.update (o : Oracle) (env : Env) (s : GameState) (dt now : ℚ) :
    GameState × List Cue :=
  let p := enemyLoop o env dt s s.enemies.length
  let q := Game.updateWave o env p.1 dt now
  (q.1, p.2 ++ q.2)

/-- `Game.restart` (legal only from the game-over screen; `now` is the
`Date.now()` read). -/
def Game.restart (env : Env) (s : GameState) (now : ℚ) : GameState :=
  let s := { s with
    score := 0, wave := 1, gameOver := false, waveClear := false,
    waveStats := none, waveStartTime := now,
    spawnInterval := getSpawnIntervalForWave 1,
    spawnTimer := getSpawnIntervalForWave 1,
    enemiesSpawnedThisWave := 0,
    totalEnemiesThisWave := getEnemyCountForWave 1,
    waveClearTimer := 0,
    totalStats := ⟨0, 0, 0, 0, 0⟩,
    enemies := [],
    player := { s.player with lives := s.player.maxLives,
                              x := env.width / 2, y := env.height - 80 } }
  InputHandler.resetStatistics (InputHandler.clear s)

/-- The `Game` constructor state (score 0, wave 1, 3 lives, no enemies,
spawn timer primed so the first enemy spawns immediately). -/
def initState (env : Env) (now : ℚ) : GameState :=
  { score := 0, wave := 1, gameOver := false, paused := false,
    waveClear := false, waveStats := none,
    spawnTimer := getSpawnIntervalForWave 1,
    spawnInterval := getSpawnIntervalForWave 1,
    waveStartTime := now, enemiesSpawnedThisWave := 0,
    totalEnemiesThisWave := getEnemyCountForWave 1,
    waveClearTimer := 0, waveClearDuration := 4,
    totalStats := ⟨0, 0, 0, 0, 0⟩,
    player := mkPlayer (env.width / 2) (env.height - 80),
    enemies := [], currentInput := [], lastInputLength := 0,
    correctInputs := 0, incorrectInputs := 0, totalCharactersTyped := 0 }

/-- One externally triggered transition of the whole system: a keyboard
input event (processed unconditionally by the DOM listeners), the Escape
clear, an animation-frame tick (skipped when over or paused), or the
restart key (handled only on the game-over screen, `src/main.js`). -/
inductive Step (env : Env) : GameState → GameState → Prop where
  | input (s : GameState) (v : Str) :
      Step env s (validateAndUpdateInput s v).1
  | escape (s : GameState) :
      Step env s (InputHandler.clear s)
  | tick (s : GameState) (o : Oracle) (dt now : ℚ)
      (hg : s.gameOver = false) (hp : s.paused = false) (hdt : 0 ≤ dt) :
      Step env s (Game.update o env s dt now).1
  | restartKey (s : GameState) (now : ℚ) (hg : s.gameOver = true) :
      Step env s (Game.restart env s now)

/-- States reachable from the constructor state. -/
inductive Reach (env : Env) : GameState → Prop where
  | init (now : ℚ) : Reach env (initState env now)
  | step {s s' : GameState} : Reach env s → Step env s s' → Reach env s'

/-! ## Elementary facts about the entity operations -/

@[simp] theorem Enemy.setTargeted_word (e : Enemy) (t : Bool) :
    (e.setTargeted t).word = e.word := by
  unfold Enemy.setTargeted; split <;> rfl

@[simp] theorem Enemy.setTargeted_targeted (e : Enemy) (t : Bool) :
    (e.setTargeted t).targeted = t := by
  unfold Enemy.setTargeted; split <;> rfl

@[simp] theorem Enemy.setTargeted_false_typedChars (e : Enemy) :
    (e.setTargeted false).typedChars = 0 := rfl

@[simp] theorem Enemy.setTargeted_true_typedChars (e : Enemy) :
    (e.setTargeted true).typedChars = e.typedChars := rfl

@[simp] theorem Enemy.setTargeted_health (e : Enemy) (t : Bool) :
    (e.setTargeted t).health = e.health := by
  unfold Enemy.setTargeted; split <;> rfl

@[simp] theorem Enemy.setTargeted_dying (e : Enemy) (t : Bool) :
    (e.setTargeted t).dying = e.dying := by
  unfold Enemy.setTargeted; split <;> rfl

@[simp] theorem Enemy.setTargeted_alive (e : Enemy) (t : Bool) :
    (e.setTargeted t).alive = e.alive := by
  unfold Enemy.setTargeted; split <;> rfl

@[simp] theorem Enemy.setTypedChars_word (e : Enemy) (n : Nat) :
    (e.setTypedChars n).word = e.word := rfl

@[simp] theorem Enemy.setTypedChars_targeted (e : Enemy) (n : Nat) :
    (e.setTypedChars n).targeted = e.targeted := rfl

@[simp] theorem Enemy.setTypedChars_typedChars (e : Enemy) (n : Nat) :
    (e.setTypedChars n).typedChars = n := rfl

@[simp] theorem Enemy.setTypedChars_health (e : Enemy) (n : Nat) :
    (e.setTypedChars n).health = e.health := rfl

@[simp] theorem Enemy.setTypedChars_dying (e : Enemy) (n : Nat) :
    (e.setTypedChars n).dying = e.dying := rfl

@[simp] theorem Enemy.setTypedChars_alive (e : Enemy) (n : Nat) :
    (e.setTypedChars n).alive = e.alive := rfl

@[simp] theorem Enemy.destroy_word (e : Enemy) : e.destroy.word = e.word := by
  unfold Enemy.destroy; split <;> rfl

@[simp] theorem Enemy.destroy_targeted (e : Enemy) : e.destroy.targeted = e.targeted := by
  unfold Enemy.destroy; split <;> rfl

@[simp] theorem Enemy.destroy_typedChars (e : Enemy) : e.destroy.typedChars = e.typedChars := by
  unfold Enemy.destroy; split <;> rfl

@[simp] theorem Enemy.destroy_health (e : Enemy) : e.destroy.health = e.health := by
  unfold Enemy.destroy; split <;> rfl

@[simp] theorem Enemy.destroy_dying (e : Enemy) : e.destroy.dying = true := by
  unfold Enemy.destroy; split <;> simp_all

@[simp] theorem Enemy.destroy_alive (e : Enemy) : e.destroy.alive = e.alive := by
  unfold Enemy.destroy; split <;> rfl

@[simp] theorem Enemy.hit_word (e : Enemy) (d : Int) : (e.hit d).word = e.word := by
  unfold Enemy.hit; dsimp only; split <;> simp

@[simp] theorem Enemy.hit_targeted (e : Enemy) (d : Int) :
    (e.hit d).targeted = e.targeted := by
  unfold Enemy.hit; dsimp only; split <;> simp

@[simp] theorem Enemy.hit_typedChars (e : Enemy) (d : Int) :
    (e.hit d).typedChars = e.typedChars := by
  unfold Enemy.hit; dsimp only; split <;> simp

@[simp] theorem Enemy.hit_health (e : Enemy) (d : Int) :
    (e.hit d).health = e.health - d := by
  unfold Enemy.hit; dsimp only; split <;> simp

@[simp] theorem Enemy.hit_alive (e : Enemy) (d : Int) : (e.hit d).alive = e.alive := by
  unfold Enemy.hit; dsimp only; split <;> simp

theorem Enemy.hit_dying (e : Enemy) (d : Int) :
    (e.hit d).dying = (e.dying ∨ e.health - d ≤ 0 : Prop) := by
  unfold Enemy.hit; dsimp only; split <;> rename_i h <;> simp [h] <;> omega

@[simp] theorem Enemy.update_word (e : Enemy) (p : Player) (ih dt dist : ℚ) :
    (e.update p ih dt dist).word = e.word := by
  unfold Enemy.update; dsimp only
  split
  · split <;> rfl
  · split <;> split <;> first | rfl | (split <;> first | rfl | (split <;> rfl))

@[simp] theorem Enemy.update_targeted (e : Enemy) (p : Player) (ih dt dist : ℚ) :
    (e.update p ih dt dist).targeted = e.targeted := by
  unfold Enemy.update; dsimp only
  split
  · split <;> rfl
  · split <;> split <;> first | rfl | (split <;> first | rfl | (split <;> rfl))

@[simp] theorem Enemy.update_typedChars (e : Enemy) (p : Player) (ih dt dist : ℚ) :
    (e.update p ih dt dist).typedChars = e.typedChars := by
  unfold Enemy.update; dsimp only
  split
  · split <;> rfl
  · split <;> split <;> first | rfl | (split <;> first | rfl | (split <;> rfl))

@[simp] theorem Enemy.update_health (e : Enemy) (p : Player) (ih dt dist : ℚ) :
    (e.update p ih dt dist).health = e.health := by
  unfold Enemy.update; dsimp only
  split
  · split <;> rfl
  · split <;> split <;> first | rfl | (split <;> first | rfl | (split <;> rfl))

@[simp] theorem Enemy.update_dying (e : Enemy) (p : Player) (ih dt dist : ℚ) :
    (e.update p ih dt dist).dying = e.dying := by
  unfold Enemy.update; dsimp only
  split
  · split <;> rfl
  · split <;> split <;> first | rfl | (split <;> first | rfl | (split <;> rfl))

@[simp] theorem Enemy.setTargeted_false_idem (e : Enemy) :
    ((e.setTargeted false).setTargeted false) = e.setTargeted false := rfl

theorem Enemy.setTargeted_false_of_untargeted {e : Enemy}
    (h1 : e.targeted = false) (h2 : e.typedChars = 0) : e.setTargeted false = e := by
  unfold Enemy.setTargeted
  cases e
  simp_all

/-! ## Characterization of the scanning loop -/

theorem isPrefixOf_of_eq {a b : Str} (h : a = b) : a.isPrefixOf b = true := by
  subst h; simp

theorem scanGo_found_true (inp : Str) :
    ∀ (es : List Enemy) (j : Nat) (mo : Option Nat),
    scanGo inp es j true mo =
      (true,
        match es.findIdx? (fun e => inp == normalizeThaana e.word) with
        | some k => some (j + k)
        | none => mo) := by
  intro es
  induction es with
  | nil => intro j mo; simp [scanGo]
  | cons e rest ih =>
    intro j mo
    simp only [scanGo, List.findIdx?_cons]
    by_cases hpre : inp.isPrefixOf (normalizeThaana e.word)
    · simp only [hpre, if_true]
      by_cases heq : inp = normalizeThaana e.word
      · simp [heq]
      · have hbeq : (inp == normalizeThaana e.word) = false := by
          simp [heq]
        simp only [heq, if_false, hbeq, List.findIdx?_succ]
        cases h : rest.findIdx? (fun e => inp == normalizeThaana e.word) <;>
          simp [ih, h, Nat.add_assoc, Nat.add_comm 1]
    · have heq : inp ≠ normalizeThaana e.word := by
        intro h; exact hpre (isPrefixOf_of_eq h)
      have hbeq : (inp == normalizeThaana e.word) = false := by simp [heq]
      simp only [hpre, if_false, Bool.false_eq_true, hbeq, List.findIdx?_succ]
      cases h : rest.findIdx? (fun e => inp == normalizeThaana e.word) <;>
        simp [ih, h, Nat.add_assoc, Nat.add_comm 1]

theorem scanGo_spec (inp : Str) :
    ∀ (es : List Enemy) (j : Nat),
    scanGo inp es j false none =
      (es.any (fun e => inp.isPrefixOf (normalizeThaana e.word)),
        match es.findIdx? (fun e => inp == normalizeThaana e.word) with
        | some k => some (j + k)
        | none =>
          (es.findIdx? (fun e => inp.isPrefixOf (normalizeThaana e.word))).map
            (fun k => j + k)) := by
  intro es
  induction es with
  | nil => intro j; simp [scanGo]
  | cons e rest ih =>
    intro j
    simp only [scanGo, List.findIdx?_cons]
    by_cases hpre : inp.isPrefixOf (normalizeThaana e.word)
    · simp only [hpre, if_true, Bool.not_false]
      by_cases heq : inp = normalizeThaana e.word
      · simp [heq, List.any_cons, hpre]
      · have hbeq : (inp == normalizeThaana e.word) = false := by simp [heq]
        simp only [heq, if_false, scanGo_found_true, hbeq, List.findIdx?_succ,
          List.any_cons, hpre, Bool.true_or]
        cases h : rest.findIdx? (fun e => inp == normalizeThaana e.word) <;>
          simp [h, scanGo_found_true, Nat.add_assoc, Nat.add_comm 1]
    · have heq : inp ≠ normalizeThaana e.word := by
        intro h; exact hpre (isPrefixOf_of_eq h)
      have hbeq : (inp == normalizeThaana e.word) = false := by simp [heq]
      simp only [hpre, if_false, Bool.false_eq_true, List.findIdx?_succ, hbeq,
        List.any_cons, Bool.false_or]
      cases h : rest.findIdx? (fun e => inp == normalizeThaana e.word)
      · cases h2 : rest.findIdx? (fun e => inp.isPrefixOf (normalizeThaana e.word)) <;>
          simp [ih, h, h2, Nat.add_assoc, Nat.add_comm 1]
      · simp [ih, h, Nat.add_assoc, Nat.add_comm 1]

/-! ## Characterization of the targeting loop -/

theorem Enemy.retarget_idem (e : Enemy) (n : Nat) :
    (((e.setTargeted true).setTypedChars n).setTargeted true).setTypedChars n =
      (e.setTargeted true).setTypedChars n := rfl

theorem Enemy.setTargeted_false_retarget (e : Enemy) (n : Nat) :
    (((e.setTargeted true).setTypedChars n).setTargeted false).setTargeted false =
      ((e.setTargeted true).setTypedChars n).setTargeted false := rfl

theorem List.set_getElem?_self {l : List α} {i : Nat} {e : α} (h : l[i]? = some e) :
    l.set i e = l := by
  apply List.ext_getElem?
  intro n
  rcases eq_or_ne i n with rfl | hne
  · have : i < l.length := by
      by_contra hlen
      rw [List.getElem?_eq_none (Nat.le_of_not_lt hlen)] at h
      exact Option.noConfusion h
    rw [List.getElem?_set_self this, h]
  · rw [List.getElem?_set_ne hne]

theorem targetStep_oob {nInput : Str} {matched : Option Nat} {s : GameState} {idx : Nat}
    (h : s.enemies[idx]? = none) : targetStep nInput matched s idx = (s, []) := by
  unfold targetStep
  rw [h]

theorem targetStep_other {nInput : Str} {matched : Option Nat} {s : GameState} {idx : Nat}
    {e : Enemy} (h : s.enemies[idx]? = some e) (hm : matched ≠ some idx) :
    targetStep nInput matched s idx =
      ({ s with enemies := s.enemies.set idx (e.setTargeted false) }, []) := by
  unfold targetStep
  rw [h]
  simp [hm]

theorem targetStep_matched_noexact {nInput : Str} {s : GameState} {idx : Nat}
    {e : Enemy} (h : s.enemies[idx]? = some e)
    (hne : nInput ≠ normalizeThaana e.word) :
    targetStep nInput (some idx) s idx =
      ({ s with enemies :=
          s.enemies.set idx ((e.setTargeted true).setTypedChars nInput.length) }, []) := by
  unfold targetStep
  rw [h]
  simp [hne]

theorem targetStep_matched_exact {nInput : Str} {s : GameState} {idx : Nat}
    {e : Enemy} (h : s.enemies[idx]? = some e)
    (heq : nInput = normalizeThaana e.word) :
    targetStep nInput (some idx) s idx =
      ({ s with
          enemies :=
            (s.enemies.set idx
              (((e.setTargeted true).setTypedChars nInput.length).destroy)).map
              (fun e => e.setTargeted false),
          currentInput := [], lastInputLength := 0,
          score := s.score + (e.word.length : Int) * 10 }, [Cue.hit]) := by
  have hlt : idx < s.enemies.length := by
    by_contra hlen
    rw [List.getElem?_eq_none (Nat.le_of_not_lt hlen)] at h
    exact Option.noConfusion h
  unfold targetStep
  rw [h]
  have hw : ((e.setTargeted true).setTypedChars nInput.length).word = e.word := by simp
  simp only [if_pos rfl, hw, if_pos heq, reduceIte]
  unfold handleCompleteMatch
  rw [List.getElem?_set_self (by simpa using hlt)]
  simp only [List.set_set, hw]
  unfold InputHandler.clear Game.clearAllTargets Game.addScore
  simp [hw]

theorem targetLoop_none (nInput : Str) :
    ∀ (idxs : List Nat) (s : GameState),
    ∃ es', targetLoop nInput none s idxs = ({ s with enemies := es' }, []) ∧
      ∀ j, es'[j]? =
        if j ∈ idxs then (s.enemies[j]?).map (fun e => e.setTargeted false)
        else s.enemies[j]? := by
  intro idxs
  induction idxs with
  | nil =>
    intro s
    exact ⟨s.enemies, rfl, fun j => by simp⟩
  | cons i rest ih =>
    intro s
    cases h : s.enemies[i]? with
    | none =>
      obtain ⟨es', h1, h2⟩ := ih s
      refine ⟨es', ?_, fun j => ?_⟩
      · simp only [targetLoop, targetStep_oob h, h1, List.nil_append, List.append_nil]
      · rw [h2 j]
        rcases eq_or_ne j i with rfl | hne
        · simp [h]
        · simp [List.mem_cons, hne]
    | some e =>
      have hstep := @targetStep_other nInput _ _ _ _ h
        (by simp : (none : Option Nat) ≠ some i)
      obtain ⟨es', h1, h2⟩ :=
        ih { s with enemies := s.enemies.set i (e.setTargeted false) }
      refine ⟨es', ?_, fun j => ?_⟩
      · simp only [targetLoop, hstep, h1, List.nil_append, List.append_nil]
      · rw [h2 j]
        dsimp only
        rcases eq_or_ne j i with rfl | hne
        · have hlt : j < s.enemies.length := by
            by_contra hlen
            rw [List.getElem?_eq_none (Nat.le_of_not_lt hlen)] at h
            exact Option.noConfusion h
          by_cases hj : j ∈ rest <;>
            simp [hj, List.getElem?_set_self (by simpa using hlt), h]
        · by_cases hj : j ∈ rest <;>
            simp [hj, List.getElem?_set_ne (Ne.symm hne), List.mem_cons, hne]

theorem targetLoop_some_noexact (nInput : Str) (m : Nat) :
    ∀ (idxs : List Nat) (s : GameState),
    (∀ e, s.enemies[m]? = some e → nInput ≠ normalizeThaana e.word) →
    ∃ es', targetLoop nInput (some m) s idxs = ({ s with enemies := es' }, []) ∧
      ∀ j, es'[j]? =
        if j ∈ idxs then
          (s.enemies[j]?).map (fun e =>
            if j = m then (e.setTargeted true).setTypedChars nInput.length
            else e.setTargeted false)
        else s.enemies[j]? := by
  intro idxs
  induction idxs with
  | nil =>
    intro s _
    exact ⟨s.enemies, rfl, fun j => by simp⟩
  | cons i rest ih =>
    intro s hno
    cases h : s.enemies[i]? with
    | none =>
      obtain ⟨es', h1, h2⟩ := ih s hno
      refine ⟨es', ?_, fun j => ?_⟩
      · simp only [targetLoop, targetStep_oob h, h1, List.nil_append, List.append_nil]
      · rw [h2 j]
        rcases eq_or_ne j i with rfl | hne
        · simp [h]
        · simp [List.mem_cons, hne]
    | some e =>
      rcases eq_or_ne i m with rfl | him
      · -- the matched index, no exact match
        have hne := hno e h
        have hstep := targetStep_matched_noexact h hne
        obtain ⟨es', h1, h2⟩ :=
          ih { s with enemies :=
                s.enemies.set i ((e.setTargeted true).setTypedChars nInput.length) }
            (by
              intro e' he'
              dsimp only at he'
              have hlt : i < s.enemies.length := by
                by_contra hlen
                rw [List.getElem?_eq_none (Nat.le_of_not_lt hlen)] at h
                exact Option.noConfusion h
              rw [List.getElem?_set_self (by simpa using hlt)] at he'
              cases he'
              simpa using hne)
        refine ⟨es', ?_, fun j => ?_⟩
        · simp only [targetLoop, hstep, h1, List.nil_append, List.append_nil]
        · rw [h2 j]
          dsimp only
          rcases eq_or_ne j i with rfl | hne2
          · have hlt : j < s.enemies.length := by
              by_contra hlen
              rw [List.getElem?_eq_none (Nat.le_of_not_lt hlen)] at h
              exact Option.noConfusion h
            by_cases hj : j ∈ rest <;>
              simp [hj, List.getElem?_set_self (by simpa using hlt), h,
                Enemy.retarget_idem]
          · by_cases hj : j ∈ rest <;>
              simp [hj, List.getElem?_set_ne (Ne.symm hne2), List.mem_cons, hne2]
      · -- not the matched index
        have hstep := @targetStep_other nInput _ _ _ _ h
          (by simpa using (Ne.symm him) : (some m : Option Nat) ≠ some i)
        obtain ⟨es', h1, h2⟩ :=
          ih { s with enemies := s.enemies.set i (e.setTargeted false) }
            (by
              intro e' he'
              dsimp only at he'
              rw [List.getElem?_set_ne him] at he'
              exact hno e' he')
        refine ⟨es', ?_, fun j => ?_⟩
        · simp only [targetLoop, hstep, h1, List.nil_append, List.append_nil]
        · rw [h2 j]
          dsimp only
          rcases eq_or_ne j i with rfl | hne2
          · have hlt : j < s.enemies.length := by
              by_contra hlen
              rw [List.getElem?_eq_none (Nat.le_of_not_lt hlen)] at h
              exact Option.noConfusion h
            by_cases hj : j ∈ rest <;>
              simp [hj, List.getElem?_set_self (by simpa using hlt), h, him]
          · by_cases hj : j ∈ rest <;>
              simp [hj, List.getElem?_set_ne (Ne.symm hne2), List.mem_cons, hne2]

theorem targetLoop_untargeted (nInput : Str) (m : Nat) :
    ∀ (idxs : List Nat) (s : GameState),
    m ∉ idxs →
    (∀ j ∈ idxs, ∀ e, s.enemies[j]? = some e →
      e.targeted = false ∧ e.typedChars = 0) →
    targetLoop nInput (some m) s idxs = (s, []) := by
  intro idxs
  induction idxs with
  | nil => intro s _ _; rfl
  | cons i rest ih =>
    intro s hm hu
    have him : m ≠ i := fun h => hm (h ▸ List.mem_cons_self ..)
    cases h : s.enemies[i]? with
    | none =>
      simp only [targetLoop, targetStep_oob h,
        ih s (fun h' => hm (List.mem_cons_of_mem _ h'))
          (fun j hj => hu j (List.mem_cons_of_mem _ hj)),
        List.nil_append, List.append_nil]
    | some e =>
      have hstep := @targetStep_other nInput _ _ _ _ h
        (show (some m : Option Nat) ≠ some i by simpa using him)
      obtain ⟨h1, h2⟩ := hu i (List.mem_cons_self ..) e h
      have hfix : e.setTargeted false = e := Enemy.setTargeted_false_of_untargeted h1 h2
      have hset : s.enemies.set i (e.setTargeted false) = s.enemies := by
        rw [hfix]; exact List.set_getElem?_self h
      rw [hset] at hstep
      have hs1 : ({ s with enemies := s.enemies } : GameState) = s := rfl
      rw [hs1] at hstep
      simp only [targetLoop, hstep,
        ih s (fun h' => hm (List.mem_cons_of_mem _ h'))
          (fun j hj => hu j (List.mem_cons_of_mem _ hj)),
        List.nil_append, List.append_nil]

theorem targetLoop_some_exact (nInput : Str) :
    ∀ (idxs : List Nat) (s : GameState) (m : Nat) (e0 : Enemy),
    idxs.Nodup → m ∈ idxs →
    s.enemies[m]? = some e0 →
    nInput = normalizeThaana e0.word →
    targetLoop nInput (some m) s idxs =
      ({ s with
          enemies := (s.enemies.set m
            (((e0.setTargeted true).setTypedChars nInput.length).destroy)).map
            (fun e => e.setTargeted false),
          currentInput := [], lastInputLength := 0,
          score := s.score + (e0.word.length : Int) * 10 }, [Cue.hit]) := by
  intro idxs
  induction idxs with
  | nil => intro s m e0 _ hm; simp at hm
  | cons i rest ih =>
    intro s m e0 hnd hm he heq
    rcases eq_or_ne i m with rfl | him
    · -- completion happens at this index
      have hmrest : i ∉ rest := (List.nodup_cons.mp hnd).1
      have hstep := targetStep_matched_exact he heq
      set sC : GameState :=
        { s with
          enemies := (s.enemies.set i
            (((e0.setTargeted true).setTypedChars nInput.length).destroy)).map
            (fun e => e.setTargeted false),
          currentInput := [], lastInputLength := 0,
          score := s.score + (e0.word.length : Int) * 10 } with hsC
      have htail : targetLoop nInput (some i) sC rest = (sC, []) := by
        apply targetLoop_untargeted nInput i rest sC hmrest
        intro j _ e hje
        rw [hsC] at hje
        simp only [List.getElem?_map] at hje
        cases hx : (s.enemies.set i
            (((e0.setTargeted true).setTypedChars nInput.length).destroy))[j]? with
        | none => rw [hx] at hje; exact Option.noConfusion hje
        | some e' =>
          rw [hx] at hje
          simp only [Option.map_some'] at hje
          cases hje
          simp
      simp only [targetLoop, hstep, htail, List.append_nil]
    · -- a non-matched index first
      have hmrest : m ∈ rest := by
        rcases List.mem_cons.mp hm with h' | h'
        · exact absurd h'.symm him
        · exact h'
      cases h : s.enemies[i]? with
      | none =>
        have := ih s m e0 (List.nodup_cons.mp hnd).2 hmrest he heq
        simp only [targetLoop, targetStep_oob h, this, List.nil_append, List.append_nil]
      | some e =>
        have hstep := @targetStep_other nInput _ _ _ _ h
          (show (some m : Option Nat) ≠ some i by simpa using Ne.symm him)
        set s1 : GameState :=
          { s with enemies := s.enemies.set i (e.setTargeted false) } with hs1
        have he1 : s1.enemies[m]? = some e0 := by
          rw [hs1]; dsimp only
          rw [List.getElem?_set_ne him]
          exact he
        have hfold := ih s1 m e0 (List.nodup_cons.mp hnd).2 hmrest he1 heq
        have hlist :
            List.map (fun e => e.setTargeted false)
              ((s.enemies.set i (e.setTargeted false)).set m
                (((e0.setTargeted true).setTypedChars nInput.length).destroy)) =
            List.map (fun e => e.setTargeted false)
              (s.enemies.set m
                (((e0.setTargeted true).setTypedChars nInput.length).destroy)) := by
          apply List.ext_getElem?
          intro j
          simp only [List.getElem?_map]
          rcases eq_or_ne j m with rfl | hjm
          · have hlt : j < s.enemies.length := by
              by_contra hlen
              rw [List.getElem?_eq_none (Nat.le_of_not_lt hlen)] at he
              exact Option.noConfusion he
            rw [List.getElem?_set_self (by simpa using hlt),
              List.getElem?_set_self (by simpa using hlt)]
          · rw [List.getElem?_set_ne (Ne.symm hjm), List.getElem?_set_ne (Ne.symm hjm)]
            rcases eq_or_ne j i with rfl | hji
            · rw [List.getElem?_set_self (by
                by_contra hlen
                rw [List.getElem?_eq_none (by simpa using Nat.le_of_not_lt hlen)] at h
                exact Option.noConfusion h), h]
              simp
            · rw [List.getElem?_set_ne (Ne.symm hji)]
        simp only [targetLoop, hstep, hfold, List.nil_append, List.append_nil, hs1, hlist]

/-! ## Consequences for `checkMatches` -/

/-- The lock selection rule implemented by the scanning loop: the first
exact match if any, otherwise the first prefix match. -/
def matchedIdx (nInput : Str) (es : List Enemy) : Option Nat :=
  match es.findIdx? (fun e => nInput == normalizeThaana e.word) with
  | some k => some k
  | none => es.findIdx? (fun e => nInput.isPrefixOf (normalizeThaana e.word))

theorem scanGo_matchedIdx (nInput : Str) (es : List Enemy) :
    (scanGo nInput es 0 false none).2 = matchedIdx nInput es := by
  rw [scanGo_spec]
  unfold matchedIdx
  cases h : es.findIdx? (fun e => nInput == normalizeThaana e.word) with
  | some k => simp [h]
  | none =>
    cases h2 : es.findIdx? (fun e => nInput.isPrefixOf (normalizeThaana e.word)) <;>
      simp [h, h2]

theorem checkMatches_empty {s : GameState} (h : s.currentInput = []) :
    checkMatches s = (Game.clearAllTargets { s with lastInputLength := 0 }, []) := by
  unfold checkMatches
  rw [if_pos h]

theorem checkMatches_nonempty {s : GameState} (h : s.currentInput ≠ []) :
    (checkMatches s).1 =
      { (targetLoop (normalizeThaana s.currentInput)
          (matchedIdx (normalizeThaana s.currentInput) s.enemies) s
          (List.range s.enemies.length)).1 with
        lastInputLength :=
          (targetLoop (normalizeThaana s.currentInput)
            (matchedIdx (normalizeThaana s.currentInput) s.enemies) s
            (List.range s.enemies.length)).1.currentInput.length } := by
  conv_lhs => unfold checkMatches
  rw [if_neg h]
  simp only [scanGo_matchedIdx]

/-- Number of currently targeted enemies. -/
def countTargeted (es : List Enemy) : Nat :=
  (es.filter (fun e => e.targeted)).length

theorem countTargeted_eq_zero {es : List Enemy}
    (h : ∀ e ∈ es, e.targeted = false) : countTargeted es = 0 := by
  unfold countTargeted
  rw [List.filter_eq_nil_iff.mpr (by intro e he; simp [h e he])]
  rfl

theorem countTargeted_le_one {es : List Enemy} {m : Nat}
    (h : ∀ j, ∀ e, es[j]? = some e → e.targeted = true → j = m) :
    countTargeted es ≤ 1 := by
  induction es generalizing m with
  | nil => simp [countTargeted]
  | cons e0 rest ih =>
    unfold countTargeted
    cases ht : e0.targeted with
    | false =>
      simp only [List.filter_cons, ht, Bool.false_eq_true, if_neg, reduceIte]
      cases m with
      | zero =>
        have : ∀ e ∈ rest, e.targeted = false := by
          intro e he
          obtain ⟨j, hj⟩ := List.mem_iff_getElem?.mp he
          cases h2 : e.targeted with
          | false => rfl
          | true =>
            have := h (j + 1) e (by simpa using hj) h2
            omega
        have := countTargeted_eq_zero this
        unfold countTargeted at this
        omega
      | succ m' =>
        exact ih (m := m') (fun j e hj h2 => by
          have := h (j + 1) e (by simpa using hj) h2
          omega)
    | true =>
      have hm : 0 = m := h 0 e0 (by simp) ht
      have : ∀ e ∈ rest, e.targeted = false := by
        intro e he
        obtain ⟨j, hj⟩ := List.mem_iff_getElem?.mp he
        cases h2 : e.targeted with
        | false => rfl
        | true =>
          have := h (j + 1) e (by simpa using hj) h2
          omega
      have hz := countTargeted_eq_zero this
      unfold countTargeted at hz
      simp only [List.filter_cons, ht, reduceIte, List.length_cons]
      omega

/-- After any `checkMatches` call, at most one enemy is targeted, the
recorded input length is the buffer's length, every targeted enemy carries
the normalized buffer's length as its typed count and the normalized buffer
is a prefix of its normalized word, and the statistics counters are
untouched. -/
theorem checkMatches_establishes (s : GameState) :
    countTargeted (checkMatches s).1.enemies ≤ 1 ∧
    (checkMatches s).1.lastInputLength = (checkMatches s).1.currentInput.length ∧
    (∀ e ∈ (checkMatches s).1.enemies, e.targeted = true →
      e.typedChars = (normalizeThaana (checkMatches s).1.currentInput).length ∧
      (normalizeThaana (checkMatches s).1.currentInput).isPrefixOf
        (normalizeThaana e.word) = true) ∧
    (checkMatches s).1.correctInputs = s.correctInputs ∧
    (checkMatches s).1.incorrectInputs = s.incorrectInputs ∧
    (checkMatches s).1.totalCharactersTyped = s.totalCharactersTyped := by
  by_cases h : s.currentInput = []
  · rw [checkMatches_empty h]
    unfold Game.clearAllTargets
    refine ⟨?_, ?_, ?_, rfl, rfl, rfl⟩
    · rw [countTargeted_eq_zero (by
        intro e he
        obtain ⟨e', _, rfl⟩ := List.mem_map.mp he
        simp)]
      omega
    · simp [h]
    · intro e he ht
      obtain ⟨e', _, rfl⟩ := List.mem_map.mp he
      simp at ht
  · rw [checkMatches_nonempty h]
    set nInput := normalizeThaana s.currentInput with hnI
    cases hmi : matchedIdx nInput s.enemies with
    | none =>
      obtain ⟨es', h1, h2⟩ := targetLoop_none nInput (List.range s.enemies.length) s
      rw [h1]
      dsimp only
      have huntgt : ∀ e ∈ es', e.targeted = false := by
        intro e he
        obtain ⟨j, hj⟩ := List.mem_iff_getElem?.mp he
        rw [h2 j] at hj
        by_cases hjn : j ∈ List.range s.enemies.length
        · rw [if_pos hjn] at hj
          cases hx : s.enemies[j]? with
          | none => rw [hx] at hj; exact Option.noConfusion hj
          | some e' =>
            rw [hx] at hj
            simp only [Option.map_some'] at hj
            cases hj
            simp
        · rw [if_neg hjn] at hj
          rw [List.getElem?_eq_none (by simpa using hjn)] at hj
          exact Option.noConfusion hj
      refine ⟨?_, rfl, ?_, rfl, rfl, rfl⟩
      · rw [countTargeted_eq_zero huntgt]; omega
      · intro e he ht
        rw [huntgt e he] at ht
        exact Bool.noConfusion ht
    | some m =>
      cases heqf : s.enemies.findIdx? (fun e => nInput == normalizeThaana e.word) with
      | some k =>
        -- exact-match case: the buffer equals enemy k's word; completion ran
        have hmk : m = k := by
          unfold matchedIdx at hmi
          rw [heqf] at hmi
          exact (Option.some_inj.mp hmi).symm
        subst hmk
        obtain ⟨hklt, hpk, -⟩ := List.findIdx?_eq_some_iff_getElem.mp heqf
        have he0 : s.enemies[m]? = some s.enemies[m] := List.getElem?_eq_getElem hklt
        have heq0 : nInput = normalizeThaana (s.enemies[m]).word := by
          simpa using hpk
        have hloop := targetLoop_some_exact nInput (List.range s.enemies.length) s m
          (s.enemies[m]) (List.nodup_range _) (by simpa using hklt) he0 heq0
        rw [hloop]
        dsimp only
        refine ⟨?_, by simp, ?_, rfl, rfl, rfl⟩
        · rw [countTargeted_eq_zero (by
            intro e he
            obtain ⟨e', _, rfl⟩ := List.mem_map.mp he
            simp)]
          omega
        · intro e he ht
          obtain ⟨e', _, rfl⟩ := List.mem_map.mp he
          simp at ht
      | none =>
        -- prefix-match case: enemy m is targeted, no completion
        have hppm : s.enemies.findIdx?
            (fun e => nInput.isPrefixOf (normalizeThaana e.word)) = some m := by
          unfold matchedIdx at hmi
          rw [heqf] at hmi
          exact hmi
        obtain ⟨hmlt, hpm, -⟩ := List.findIdx?_eq_some_iff_getElem.mp hppm
        have hnoeq : ∀ e, s.enemies[m]? = some e → nInput ≠ normalizeThaana e.word := by
          intro e hme hcontra
          have hmem : e ∈ s.enemies := by
            rw [List.mem_iff_getElem?]; exact ⟨m, hme⟩
          have := List.findIdx?_eq_none_iff.mp heqf e hmem
          simp [hcontra] at this
        obtain ⟨es', h1, h2⟩ :=
          targetLoop_some_noexact nInput m (List.range s.enemies.length) s hnoeq
        rw [h1]
        dsimp only
        have honly : ∀ j, ∀ e, es'[j]? = some e → e.targeted = true → j = m := by
          intro j e hj ht
          rw [h2 j] at hj
          by_cases hjn : j ∈ List.range s.enemies.length
          · rw [if_pos hjn] at hj
            cases hx : s.enemies[j]? with
            | none => rw [hx] at hj; exact Option.noConfusion hj
            | some e' =>
              rw [hx] at hj
              simp only [Option.map_some'] at hj
              cases hj
              by_cases hjm : j = m
              · exact hjm
              · rw [if_neg hjm] at ht
                simp at ht
          · rw [if_neg hjn] at hj
            rw [List.getElem?_eq_none (by simpa using hjn)] at hj
            exact Option.noConfusion hj
        refine ⟨countTargeted_le_one honly, rfl, ?_, rfl, rfl, rfl⟩
        intro e he ht
        obtain ⟨j, hj⟩ := List.mem_iff_getElem?.mp he
        have hjm : j = m := honly j e hj ht
        subst hjm
        rw [h2 j, if_pos (by simpa using hmlt),
          List.getElem?_eq_getElem hmlt] at hj
        simp only [Option.map_some', if_pos rfl] at hj
        cases hj
        constructor
        · simp
        · simpa using hpm

/-! ## The reachable-state invariant -/

/-- The core invariant: at most one targeted enemy; the recorded input
length tracks the buffer; every targeted enemy's typed counter equals the
normalized buffer's length and the normalized buffer is a prefix of its
normalized word; the character total is the sum of correct and incorrect
counts. -/
def GameInv (s : GameState) : Prop :=
  countTargeted s.enemies ≤ 1 ∧
  s.lastInputLength = s.currentInput.length ∧
  (∀ e ∈ s.enemies, e.targeted = true →
    e.typedChars = (normalizeThaana s.currentInput).length ∧
    (normalizeThaana s.currentInput).isPrefixOf (normalizeThaana e.word) = true) ∧
  s.totalCharactersTyped = s.correctInputs + s.incorrectInputs

theorem clear_establishes (s : GameState) :
    countTargeted (InputHandler.clear s).enemies ≤ 1 ∧
    (InputHandler.clear s).lastInputLength =
      (InputHandler.clear s).currentInput.length ∧
    (∀ e ∈ (InputHandler.clear s).enemies, e.targeted = true →
      e.typedChars = (normalizeThaana (InputHandler.clear s).currentInput).length ∧
      (normalizeThaana (InputHandler.clear s).currentInput).isPrefixOf
        (normalizeThaana e.word) = true) ∧
    (InputHandler.clear s).correctInputs = s.correctInputs ∧
    (InputHandler.clear s).incorrectInputs = s.incorrectInputs ∧
    (InputHandler.clear s).totalCharactersTyped = s.totalCharactersTyped := by
  unfold InputHandler.clear Game.clearAllTargets
  refine ⟨?_, rfl, ?_, rfl, rfl, rfl⟩
  · rw [countTargeted_eq_zero (by
      intro e he
      obtain ⟨e', _, rfl⟩ := List.mem_map.mp he
      simp)]
    omega
  · intro e he ht
    obtain ⟨e', _, rfl⟩ := List.mem_map.mp he
    simp at ht

theorem clear_inv (s : GameState) (h : GameInv s) : GameInv (InputHandler.clear s) := by
  obtain ⟨c1, c2, c3, c4, c5, c6⟩ := clear_establishes s
  exact ⟨c1, c2, c3, by rw [c4, c5, c6]; exact h.2.2.2⟩

theorem checkMatches_inv (s : GameState)
    (h : s.totalCharactersTyped = s.correctInputs + s.incorrectInputs) :
    GameInv (checkMatches s).1 := by
  obtain ⟨c1, c2, c3, c4, c5, c6⟩ := checkMatches_establishes s
  exact ⟨c1, c2, c3, by rw [c4, c5, c6]; exact h⟩

/-- The input handler re-establishes the invariant after every input
event. -/
theorem validateAndUpdateInput_inv (s : GameState) (v : Str)
    (h : s.totalCharactersTyped = s.correctInputs + s.incorrectInputs) :
    GameInv (validateAndUpdateInput s v).1 := by
  unfold validateAndUpdateInput
  by_cases hlen : v.length ≤ s.currentInput.length
  · rw [if_pos hlen]
    exact checkMatches_inv _ h
  · rw [if_neg hlen]
    cases hf : s.enemies.findIdx? (fun e => e.targeted) with
    | none => exact checkMatches_inv _ h
    | some i =>
      obtain ⟨hlt, -, -⟩ := List.findIdx?_eq_some_iff_getElem.mp hf
      dsimp only
      rw [List.getElem?_eq_getElem hlt]
      dsimp only
      by_cases hpre : (normalizeThaana v).isPrefixOf
          (normalizeThaana (s.enemies[i]).word) = true
      · rw [if_pos hpre]
        exact checkMatches_inv _ (by dsimp only; omega)
      · rw [if_neg hpre]
        dsimp only
        have := clear_establishes
          { s with incorrectInputs := s.incorrectInputs + 1,
                   totalCharactersTyped := s.totalCharactersTyped + 1 }
        obtain ⟨c1, c2, c3, c4, c5, c6⟩ := this
        exact ⟨c1, c2, c3, by rw [c4, c5, c6]; dsimp only; omega⟩

theorem countTargeted_set_eq {es : List Enemy} {i : Nat} {e0 e : Enemy}
    (h0 : es[i]? = some e0) (ht : e.targeted = e0.targeted) :
    countTargeted (es.set i e) = countTargeted es := by
  induction es generalizing i with
  | nil => simp at h0
  | cons x rest ih =>
    cases i with
    | zero =>
      simp only [List.getElem?_cons_zero, Option.some_inj] at h0
      subst h0
      unfold countTargeted
      simp only [List.set_cons_zero, List.filter_cons, ht]
      split <;> simp
    | succ i' =>
      simp only [List.getElem?_cons_succ] at h0
      unfold countTargeted
      simp only [List.set_cons_succ, List.filter_cons]
      have := ih h0
      unfold countTargeted at this
      cases x.targeted <;> simp [this]

theorem countTargeted_append_untargeted {es : List Enemy} {e : Enemy}
    (h : e.targeted = false) :
    countTargeted (es ++ [e]) = countTargeted es := by
  unfold countTargeted
  rw [List.filter_append]
  simp [h]

theorem countTargeted_eraseIdx_le (es : List Enemy) (i : Nat) :
    countTargeted (es.eraseIdx i) ≤ countTargeted es :=
  ((List.eraseIdx_sublist es i).filter _).length_le

theorem processEnemy_inv (o : Oracle) (env : Env) (dt : ℚ) (s : GameState) (i : Nat)
    (h : GameInv s) : GameInv (processEnemy o env dt s i).1 := by
  obtain ⟨h1, h2, h3, h4⟩ := h
  unfold processEnemy
  cases hl : s.enemies[i]? with
  | none => exact ⟨h1, h2, h3, h4⟩
  | some e0 =>
    dsimp only
    set e := e0.update s.player env.innerHeight dt (o.dists i) with he
    have hset : GameInv { s with enemies := s.enemies.set i e } := by
      refine ⟨?_, h2, ?_, h4⟩
      · rw [countTargeted_set_eq hl (by rw [he]; simp)]
        exact h1
      · intro e' he' ht
        rcases List.mem_or_eq_of_mem_set he' with hmem | rfl
        · exact h3 e' hmem ht
        · have hmem0 : e0 ∈ s.enemies := by
            rw [List.mem_iff_getElem?]; exact ⟨i, hl⟩
          have ht0 : e0.targeted = true := by
            rw [he] at ht; simpa using ht
          obtain ⟨ha, hb⟩ := h3 e0 hmem0 ht0
          rw [he]
          simp [ha, hb]
    obtain ⟨g1, g2, g3, g4⟩ := hset
    by_cases halive : e.alive
    · simp only [halive, not_true, if_neg, Bool.not_true, reduceIte]
      by_cases hbdry : (e.isOffScreen (env.height + 50) ∨
          Game.checkCollision e { s with enemies := s.enemies.set i e }.player) ∧ ¬e.dying
      · rw [if_pos hbdry]
        have hset2 : (s.enemies.set i e)[i]? = some e := by
          apply List.getElem?_set_self
          by_contra hlen
          rw [List.getElem?_eq_none (Nat.le_of_not_lt (by simpa using hlen))] at hl
          exact Option.noConfusion hl
        have hinv2 : GameInv
            { s with enemies := (s.enemies.set i e).set i e.destroy,
                     player := s.player.takeDamage } := by
          refine ⟨?_, g2, ?_, g4⟩
          · rw [countTargeted_set_eq (by simpa using hset2) (by simp)]
            exact g1
          · intro e' he' ht
            rcases List.mem_or_eq_of_mem_set he' with hmem | rfl
            · exact g3 e' hmem ht
            · have ht0 : e.targeted = true := by simpa using ht
              obtain ⟨ha, hb⟩ := g3 e (by
                rw [List.mem_iff_getElem?]; exact ⟨i, hset2⟩) ht0
              simp [ha, hb]
        obtain ⟨k1, k2, k3, k4⟩ := hinv2
        split
        · exact ⟨k1, k2, k3, k4⟩
        · exact ⟨k1, k2, k3, k4⟩
      · rw [if_neg hbdry]
        exact ⟨g1, g2, g3, g4⟩
    · simp only [halive, Bool.not_false, if_pos, reduceIte]
      by_cases ht : e.targeted
      · rw [if_pos ht]
        obtain ⟨c1, c2, c3, c4, c5, c6⟩ :=
          clear_establishes { s with enemies := s.enemies.set i e }
        refine ⟨?_, c2, ?_, ?_⟩
        · calc countTargeted ((InputHandler.clear
              { s with enemies := s.enemies.set i e }).enemies.eraseIdx i) ≤ _ :=
                countTargeted_eraseIdx_le _ i
            _ ≤ 1 := c1
        · intro e' he' ht'
          exact c3 e' (List.mem_of_mem_eraseIdx he') ht'
        · dsimp only at c4 c5 c6 ⊢
          rw [c4, c5, c6]
          exact h4
      · rw [if_neg ht]
        refine ⟨?_, g2, ?_, g4⟩
        · exact le_trans (countTargeted_eraseIdx_le _ i) g1
        · intro e' he' ht'
          exact g3 e' (List.mem_of_mem_eraseIdx he') ht'

theorem enemyLoop_inv (o : Oracle) (env : Env) (dt : ℚ) :
    ∀ (n : Nat) (s : GameState), GameInv s → GameInv (enemyLoop o env dt s n).1 := by
  intro n
  induction n with
  | zero => intro s h; exact h
  | succ i ih =>
    intro s h
    exact ih _ (processEnemy_inv o env dt s i h)

theorem spawnEnemy_inv (o : Oracle) (env : Env) (s : GameState)
    (h : GameInv s) : GameInv (Game.spawnEnemy o env s) := by
  obtain ⟨h1, h2, h3, h4⟩ := h
  unfold Game.spawnEnemy
  refine ⟨?_, h2, ?_, h4⟩
  · rw [countTargeted_append_untargeted rfl]
    exact h1
  · intro e he ht
    rcases List.mem_append.mp he with hmem | hmem
    · exact h3 e hmem ht
    · rw [List.mem_singleton.mp hmem] at ht
      exact Bool.noConfusion ht

theorem showWaveClear_inv (s : GameState) (now : ℚ)
    (h : GameInv s) : GameInv (Game.showWaveClear s now) := by
  obtain ⟨_, h2, _, h4⟩ := h
  unfold Game.showWaveClear
  refine ⟨?_, h2, ?_, h4⟩
  · rw [countTargeted_eq_zero (by intro e he; simp at he)]
    omega
  · intro e he
    simp at he

theorem continueToNextWave_inv (s : GameState) (now : ℚ)
    (h : GameInv s) : GameInv (Game.continueToNextWave s now) := by
  obtain ⟨h1, h2, h3, _⟩ := h
  unfold Game.continueToNextWave InputHandler.resetStatistics
  exact ⟨h1, h2, h3, rfl⟩

theorem updateWave_inv (o : Oracle) (env : Env) (s : GameState) (dt now : ℚ)
    (h : GameInv s) : GameInv (Game.updateWave o env s dt now).1 := by
  obtain ⟨h1, h2, h3, h4⟩ := h
  unfold Game.updateWave
  by_cases hwc : s.waveClear = true
  · rw [if_pos hwc]
    dsimp only
    by_cases htimer : s.waveClearTimer + dt < s.waveClearDuration
    · rw [if_pos htimer]
      exact ⟨h1, h2, h3, h4⟩
    · rw [if_neg htimer]
      exact continueToNextWave_inv _ now ⟨h1, h2, h3, h4⟩
  · rw [if_neg hwc]
    dsimp only
    have hstep : GameInv { s with spawnTimer := s.spawnTimer + dt } :=
      ⟨h1, h2, h3, h4⟩
    by_cases hsp : s.spawnTimer + dt ≥ s.spawnInterval ∧
        s.enemiesSpawnedThisWave < s.totalEnemiesThisWave
    · rw [if_pos hsp]
      have hspawned :
          GameInv { (Game.spawnEnemy o env
            { s with spawnTimer := s.spawnTimer + dt }) with spawnTimer := 0 } := by
        obtain ⟨k1, k2, k3, k4⟩ :=
          spawnEnemy_inv o env { s with spawnTimer := s.spawnTimer + dt } hstep
        exact ⟨k1, k2, k3, k4⟩
      obtain ⟨k1, k2, k3, k4⟩ := hspawned
      split
      · exact showWaveClear_inv _ now ⟨k1, k2, k3, k4⟩
      · exact ⟨k1, k2, k3, k4⟩
    · rw [if_neg hsp]
      obtain ⟨k1, k2, k3, k4⟩ := hstep
      split
      · exact showWaveClear_inv _ now ⟨k1, k2, k3, k4⟩
      · exact ⟨k1, k2, k3, k4⟩

theorem update_inv (o : Oracle) (env : Env) (s : GameState) (dt now : ℚ)
    (h : GameInv s) : GameInv (Game.update o env s dt now).1 := by
  show GameInv (Game.updateWave o env
    (enemyLoop o env dt s s.enemies.length).1 dt now).1
  exact updateWave_inv o env _ dt now (enemyLoop_inv o env dt s.enemies.length s h)

theorem restart_inv (env : Env) (s : GameState) (now : ℚ) :
    GameInv (Game.restart env s now) := by
  unfold Game.restart
  obtain ⟨c1, c2, c3, -, -, -⟩ := clear_establishes
    { s with
      score := 0, wave := 1, gameOver := false, waveClear := false,
      waveStats := none, waveStartTime := now,
      spawnInterval := getSpawnIntervalForWave 1,
      spawnTimer := getSpawnIntervalForWave 1,
      enemiesSpawnedThisWave := 0,
      totalEnemiesThisWave := getEnemyCountForWave 1,
      waveClearTimer := 0,
      totalStats := ⟨0, 0, 0, 0, 0⟩,
      enemies := [],
      player := { s.player with lives := s.player.maxLives,
                                x := env.width / 2, y := env.height - 80 } }
  exact ⟨c1, c2, c3, rfl⟩

theorem initState_inv (env : Env) (now : ℚ) : GameInv (initState env now) := by
  refine ⟨?_, rfl, ?_, rfl⟩
  · rw [countTargeted_eq_zero (by intro e he; simp [initState] at he)]
    omega
  · intro e he
    simp [initState] at he

/-- Every reachable state satisfies the core invariant. -/
theorem reach_inv {env : Env} {s : GameState} (h : Reach env s) : GameInv s := by
  induction h with
  | init now => exact initState_inv env now
  | step _ hstep ih =>
    cases hstep with
    | input v => exact validateAndUpdateInput_inv _ v ih.2.2.2
    | escape => exact clear_inv _ ih
    | tick o dt now hg hp hdt => exact update_inv o env _ dt now ih
    | restartKey now hg => exact restart_inv env _ now

/-! ## Claim theorems -/

/-- A concrete environment: the reference canvas size of `Game` and the
in-source fallback word pool (used when no word file is loaded). -/
def env₀ : Env :=
  { width := 1200, height := 700, innerHeight := 800,
    wordsForWave := fun _ => fallbackWords }

/-- C8: text normalization (trim plus NFC composition) is idempotent:
`normalizeThaana (normalizeThaana s) = normalizeThaana s` for every
string. -/
theorem C8_normalize_idempotent (s : Str) :
    normalizeThaana (normalizeThaana s) = normalizeThaana s :=
  normalizeThaana_idem_aux s

/-- The accuracy formula as the specification states it. -/
def specAccuracy (correct total : Nat) : Int :=
  if total = 0 then 100 else jsRound (100 * (correct : ℚ) / (total : ℚ))

/-- The WPM formula as the specification states it. -/
def specWpm (correct : Nat) (elapsedMs : ℚ) : Int :=
  if elapsedMs ≤ 0 then 0 else jsRound (((correct : ℚ) / 5) / (elapsedMs / 60000))

/-- C9: the statistics accessors agree with the specified formulas:
accuracy is `round(100*correct/total)` with value 100 (not undefined) at
`total = 0`, and WPM is `round((correct/5)/elapsedMinutes)` with value 0
for non-positive elapsed time. -/
theorem C9_statistics_formulas (correct total : Nat) (elapsedMs : ℚ) :
    getStatisticsAccuracy correct total = specAccuracy correct total ∧
    waveWpm correct elapsedMs = specWpm correct elapsedMs := by
  constructor
  · unfold getStatisticsAccuracy specAccuracy
    by_cases h : total = 0
    · simp [h]
    · rw [if_neg h, if_pos (Nat.pos_of_ne_zero h)]
      congr 1
      ring
  · unfold waveWpm specWpm
    dsimp only
    have hmin : elapsedMs / 60000 > 0 ↔ 0 < elapsedMs := by
      constructor
      · intro hpos
        have h2 := mul_pos hpos (show (0:ℚ) < 60000 by norm_num)
        rwa [div_mul_cancel₀ _ (by norm_num : (60000:ℚ) ≠ 0)] at h2
      · intro hpos
        exact div_pos hpos (by norm_num)
    by_cases h : elapsedMs ≤ 0
    · rw [if_neg (by rw [hmin]; exact not_lt.mpr h), if_pos h]
    · rw [if_pos (hmin.mpr (lt_of_not_le h)), if_neg h]

/-- C1: in every reachable game state at most one live Hostile has its lock
flag (`targeted`) set: every re-evaluation targets at most the single
matched enemy and clearing the buffer clears every lock. -/
theorem C1_at_most_one_target {env : Env} {s : GameState} (h : Reach env s) :
    countTargeted s.enemies ≤ 1 :=
  (reach_inv h).1

theorem C1_witness :
    countTargeted
      (validateAndUpdateInput (initState env₀ 0) [0x784]).1.enemies ≤ 1 :=
  C1_at_most_one_target
    (Reach.step (Reach.init 0) (Step.input (initState env₀ 0) [0x784]))

/-- The oracle for a first tick from the initial state: no enemies move and
the spawn draws pick the centre of the screen and word 0. -/
def oracle0 : Oracle := { dists := fun _ => 0, spawnR := 1/2, spawnIdx := 0 }

/-- The state after one tick of one second from the initial state in
`env₀`: a single enemy carrying the word `'ކުޑަ'` has spawned at the top
centre. -/
def stage1 : GameState :=
  { score := 0, wave := 1, gameOver := false, paused := false, waveClear := false,
    waveStats := none, spawnTimer := 0, spawnInterval := 6, waveStartTime := 0,
    enemiesSpawnedThisWave := 1, totalEnemiesThisWave := 4,
    waveClearTimer := 0, waveClearDuration := 4,
    totalStats := ⟨0, 0, 0, 0, 0⟩,
    player := { x := 600, y := 620, size := 25, lives := 3, maxLives := 3 },
    enemies := [mkEnemy [0x786, 0x7AA, 0x791, 0x7A6] 600 (-50) 20],
    currentInput := [], lastInputLength := 0,
    correctInputs := 0, incorrectInputs := 0, totalCharactersTyped := 0 }

theorem stage1_eq : (Game.update oracle0 env₀ (initState env₀ 0) 1 0).1 = stage1 := by
  show (Game.updateWave oracle0 env₀
    (enemyLoop oracle0 env₀ 1 (initState env₀ 0)
      (initState env₀ 0).enemies.length).1 1 0).1 = stage1
  norm_num [Game.updateWave, enemyLoop, initState, Game.spawnEnemy, getRandomWord,
    spawnMaxLength, mkEnemy, env₀, getSpawnIntervalForWave, getEnemyCountForWave,
    fallbackWords, stage1, mkPlayer, oracle0]

theorem stage1_reach : Reach env₀ stage1 :=
  stage1_eq ▸ Reach.step (Reach.init 0)
    (Step.tick (initState env₀ 0) oracle0 1 0 rfl rfl (by norm_num))

/-- C2 counterexample: from the initial state, one tick spawns an enemy and
the single keystroke `" "` (a space) locks it with `typedChars = 0`, while
the raw buffer has length 1 — the typed-prefix counter tracks the
normalized buffer, not the raw buffer. -/
theorem C2_counterexample :
    ∃ s : GameState, Reach env₀ s ∧ ∃ e ∈ s.enemies, e.targeted = true ∧
      e.typedChars ≠ s.currentInput.length := by
  refine ⟨(validateAndUpdateInput stage1 [0x20]).1,
    Reach.step stage1_reach (Step.input stage1 [0x20]), ?_⟩
  decide

/-- C2 amended: while a Hostile is locked its `typedChars` equals the
NORMALIZED input buffer's length (not the raw buffer's length) and the
normalized buffer is a prefix of the Hostile's normalized target; whenever
the lock is cleared (`setTargeted false`) the typed-prefix counter resets
to 0. -/
theorem C2_amended {env : Env} {s : GameState} (hr : Reach env s) :
    (∀ e ∈ s.enemies, e.targeted = true →
      e.typedChars = (normalizeThaana s.currentInput).length ∧
      (normalizeThaana s.currentInput).isPrefixOf (normalizeThaana e.word) = true) ∧
    (∀ e : Enemy, (e.setTargeted false).typedChars = 0) :=
  ⟨(reach_inv hr).2.2.1, fun _ => rfl⟩

theorem C2_amended_witness :
    ((∀ e ∈ stage1.enemies, e.targeted = true →
      e.typedChars = (normalizeThaana stage1.currentInput).length ∧
      (normalizeThaana stage1.currentInput).isPrefixOf (normalizeThaana e.word) = true) ∧
    (∀ e : Enemy, (e.setTargeted false).typedChars = 0)) :=
  C2_amended stage1_reach

theorem scanGo_pair (inp : Str) (es : List Enemy) :
    scanGo inp es 0 false none =
      (es.any (fun e => inp.isPrefixOf (normalizeThaana e.word)), matchedIdx inp es) := by
  have h2 := scanGo_matchedIdx inp es
  have h1 : (scanGo inp es 0 false none).1 =
      es.any (fun e => inp.isPrefixOf (normalizeThaana e.word)) := by
    rw [scanGo_spec]
  rw [Prod.ext_iff]
  exact ⟨h1, h2⟩

theorem checkMatches_pair {s : GameState} (h : s.currentInput ≠ []) :
    checkMatches s =
      ({ (targetLoop (normalizeThaana s.currentInput)
            (matchedIdx (normalizeThaana s.currentInput) s.enemies) s
            (List.range s.enemies.length)).1 with
          lastInputLength :=
            (targetLoop (normalizeThaana s.currentInput)
              (matchedIdx (normalizeThaana s.currentInput) s.enemies) s
              (List.range s.enemies.length)).1.currentInput.length },
       (if (s.enemies.any fun e =>
              (normalizeThaana s.currentInput).isPrefixOf
                (normalizeThaana e.word)) = true ∧
           s.currentInput.length > s.lastInputLength ∧
           ¬ (s.enemies.any fun e => e.targeted) = true then [Cue.shotgun] else []) ++
       (if ¬ (s.enemies.any fun e =>
              (normalizeThaana s.currentInput).isPrefixOf
                (normalizeThaana e.word)) = true ∧
           s.currentInput.length > s.lastInputLength ∧
           ¬ (s.enemies.any fun e => e.targeted) = true then [Cue.empty] else []) ++
       (targetLoop (normalizeThaana s.currentInput)
         (matchedIdx (normalizeThaana s.currentInput) s.enemies) s
         (List.range s.enemies.length)).2) := by
  conv_lhs => unfold checkMatches
  rw [if_neg h]
  simp only [scanGo_pair]

/-- C3: while locked, an append whose normalized buffer is not a prefix of
the locked Hostile's normalized target is rejected by clearing the whole
buffer and every lock (a full reset, not a revert), emitting the reject
cue and counting one incorrect input. -/
theorem C3_locked_reject_full_clear {s : GameState} {v : Str} {i : Nat} {e : Enemy}
    (hgrow : s.currentInput.length < v.length)
    (hlock : s.enemies.findIdx? (fun e => e.targeted) = some i)
    (he : s.enemies[i]? = some e)
    (hrej : (normalizeThaana v).isPrefixOf (normalizeThaana e.word) = false) :
    validateAndUpdateInput s v =
      (InputHandler.clear
        { s with incorrectInputs := s.incorrectInputs + 1,
                 totalCharactersTyped := s.totalCharactersTyped + 1 },
       [Cue.empty]) ∧
    (validateAndUpdateInput s v).1.currentInput = [] ∧
    (∀ e' ∈ (validateAndUpdateInput s v).1.enemies, e'.targeted = false) := by
  have hmain : validateAndUpdateInput s v =
      (InputHandler.clear
        { s with incorrectInputs := s.incorrectInputs + 1,
                 totalCharactersTyped := s.totalCharactersTyped + 1 },
       [Cue.empty]) := by
    unfold validateAndUpdateInput
    rw [if_neg (not_le.mpr hgrow), hlock]
    dsimp only
    rw [he]
    dsimp only
    rw [if_neg (by simp [hrej])]
  refine ⟨hmain, ?_, ?_⟩
  · rw [hmain]; rfl
  · rw [hmain]
    intro e' he'
    unfold InputHandler.clear Game.clearAllTargets at he'
    obtain ⟨e'', _, rfl⟩ := List.mem_map.mp he'
    simp

/-- A concrete locked configuration: one enemy carrying `'ފެން'` is locked
with buffer `'ފެ'`. -/
def lockedC : GameState :=
  { stage1 with
    enemies := [{ mkEnemy [0x78A, 0x7AC, 0x782, 0x7B0] 600 (-50) 20 with
                  targeted := true, typedChars := 2 }],
    currentInput := [0x78A, 0x7AC], lastInputLength := 2 }

theorem C3_witness :
    (validateAndUpdateInput lockedC [0x78A, 0x7AC, 0x786]).1.currentInput = [] ∧
    (∀ e' ∈ (validateAndUpdateInput lockedC [0x78A, 0x7AC, 0x786]).1.enemies,
      e'.targeted = false) :=
  (C3_locked_reject_full_clear (s := lockedC) (v := [0x78A, 0x7AC, 0x786])
    (i := 0)
    (e := { mkEnemy [0x78A, 0x7AC, 0x782, 0x7B0] 600 (-50) 20 with
            targeted := true, typedChars := 2 })
    (by decide) (by decide) rfl (by decide)).2

/-- C4 counterexample: at the initial state (no live Hostiles), the append
`'ކ'` matches nothing: the reject cue is emitted but the buffer keeps the
appended value — it is NOT reverted to its pre-event value. -/
theorem C4_counterexample :
    (initState env₀ 0).enemies = [] ∧
    (initState env₀ 0).currentInput = [] ∧
    Reach env₀ (initState env₀ 0) ∧
    (validateAndUpdateInput (initState env₀ 0) [0x786]).2 = [Cue.empty] ∧
    (validateAndUpdateInput (initState env₀ 0) [0x786]).1.currentInput = [0x786] := by
  refine ⟨rfl, rfl, Reach.init 0, ?_, ?_⟩ <;> decide

/-- C4 amended: an append in the unlocked state whose resulting buffer is a
prefix of no live Hostile's normalized target emits the reject cue, but the
buffer KEEPS the appended value (the input is accepted, not reverted), and
no enemy becomes targeted. -/
theorem C4_amended {env : Env} {s : GameState} (hr : Reach env s) (v : Str)
    (hgrow : s.currentInput.length < v.length)
    (hnolock : s.enemies.findIdx? (fun e => e.targeted) = none)
    (hnomatch : ∀ e ∈ s.enemies,
      (normalizeThaana v).isPrefixOf (normalizeThaana e.word) = false) :
    (validateAndUpdateInput s v).1.currentInput = v ∧
    Cue.empty ∈ (validateAndUpdateInput s v).2 ∧
    (∀ e ∈ (validateAndUpdateInput s v).1.enemies, e.targeted = false) := by
  have hvne : v ≠ [] := by
    intro hv
    rw [hv] at hgrow
    simp at hgrow
  have hstep : validateAndUpdateInput s v =
      checkMatches { s with currentInput := v } := by
    unfold validateAndUpdateInput
    rw [if_neg (not_le.mpr hgrow), hnolock]
  set s' : GameState := { s with currentInput := v } with hs'
  have hmi : matchedIdx (normalizeThaana v) s'.enemies = none := by
    unfold matchedIdx
    have hpeq : s'.enemies.findIdx?
        (fun e => normalizeThaana v == normalizeThaana e.word) = none := by
      rw [List.findIdx?_eq_none_iff]
      intro e he
      have := hnomatch e he
      simp only [beq_eq_false_iff_ne, ne_eq]
      intro hcontra
      rw [isPrefixOf_of_eq hcontra] at this
      exact Bool.noConfusion this
    have hppre : s'.enemies.findIdx?
        (fun e => (normalizeThaana v).isPrefixOf (normalizeThaana e.word)) = none := by
      rw [List.findIdx?_eq_none_iff]
      intro e he
      simp [hnomatch e he]
    rw [hpeq, hppre]
  obtain ⟨es', h1, h2⟩ :=
    targetLoop_none (normalizeThaana v) (List.range s'.enemies.length) s'
  have hpair := checkMatches_pair (s := s') hvne
  have hcur : s'.currentInput = v := rfl
  rw [hcur] at hpair
  rw [hmi, h1] at hpair
  have hfound : (s'.enemies.any
      fun e => (normalizeThaana v).isPrefixOf (normalizeThaana e.word)) = false := by
    rw [List.any_eq_false]
    intro e he
    simp [hnomatch e he]
  have htgt : (s'.enemies.any fun e => e.targeted) = false := by
    rw [List.any_eq_false]
    intro e he
    have := List.findIdx?_eq_none_iff.mp hnolock e he
    simpa using this
  have hnew : s'.currentInput.length > s'.lastInputLength := by
    show v.length > s.lastInputLength
    rw [(reach_inv hr).2.1]
    exact hgrow
  rw [hstep, hpair]
  dsimp only
  refine ⟨rfl, ?_, ?_⟩
  · rw [if_neg (by simp [hfound]), if_pos (by simp [hfound, hnew, htgt])]
    simp
  · intro e he
    obtain ⟨j, hj⟩ := List.mem_iff_getElem?.mp he
    rw [h2 j] at hj
    by_cases hjn : j ∈ List.range s'.enemies.length
    · rw [if_pos hjn] at hj
      cases hx : s'.enemies[j]? with
      | none => rw [hx] at hj; exact Option.noConfusion hj
      | some e' =>
        rw [hx] at hj
        simp only [Option.map_some'] at hj
        cases hj
        simp
    · rw [if_neg hjn] at hj
      rw [List.getElem?_eq_none (by simpa using hjn)] at hj
      exact Option.noConfusion hj

theorem C4_amended_witness :
    (validateAndUpdateInput (initState env₀ 0) [0x786]).1.currentInput = [0x786] ∧
    Cue.empty ∈ (validateAndUpdateInput (initState env₀ 0) [0x786]).2 ∧
    (∀ e ∈ (validateAndUpdateInput (initState env₀ 0) [0x786]).1.enemies,
      e.targeted = false) :=
  C4_amended (Reach.init 0) [0x786] (by decide) (by decide) (by decide)

/-- The three statistics counters of the input handler. -/
def statCounters (s : GameState) : Nat × Nat × Nat :=
  (s.correctInputs, s.incorrectInputs, s.totalCharactersTyped)

/-- C10: `totalCharactersTyped = correctInputs + incorrectInputs` in every
reachable state, and the counters move only on appends processed while a
Hostile is locked (accept: one correct, reject: one incorrect, each with
one total character) or on an explicit statistics reset; shrink/clear
events, unlocked appends (including the lock-establishing keystroke) and
`InputHandler.clear` leave all three counters unchanged. -/
theorem C10_statistics_counters :
    (∀ (env : Env) (s : GameState), Reach env s →
      s.totalCharactersTyped = s.correctInputs + s.incorrectInputs) ∧
    (∀ (s : GameState) (v : Str), v.length ≤ s.currentInput.length →
      statCounters (validateAndUpdateInput s v).1 = statCounters s) ∧
    (∀ (s : GameState) (v : Str), s.currentInput.length < v.length →
      s.enemies.findIdx? (fun e => e.targeted) = none →
      statCounters (validateAndUpdateInput s v).1 = statCounters s) ∧
    (∀ (s : GameState) (v : Str) (i : Nat) (e : Enemy),
      s.currentInput.length < v.length →
      s.enemies.findIdx? (fun e => e.targeted) = some i →
      s.enemies[i]? = some e →
      (normalizeThaana v).isPrefixOf (normalizeThaana e.word) = true →
      statCounters (validateAndUpdateInput s v).1 =
        (s.correctInputs + 1, s.incorrectInputs, s.totalCharactersTyped + 1)) ∧
    (∀ (s : GameState) (v : Str) (i : Nat) (e : Enemy),
      s.currentInput.length < v.length →
      s.enemies.findIdx? (fun e => e.targeted) = some i →
      s.enemies[i]? = some e →
      (normalizeThaana v).isPrefixOf (normalizeThaana e.word) = false →
      statCounters (validateAndUpdateInput s v).1 =
        (s.correctInputs, s.incorrectInputs + 1, s.totalCharactersTyped + 1)) ∧
    (∀ s : GameState, statCounters (InputHandler.clear s) = statCounters s) ∧
    (∀ s : GameState, statCounters (InputHandler.resetStatistics s) = (0, 0, 0)) := by
  refine ⟨?_, ?_, ?_, ?_, ?_, fun s => rfl, fun s => rfl⟩
  · intro env s hr
    exact (reach_inv hr).2.2.2
  · intro s v hle
    unfold validateAndUpdateInput
    rw [if_pos hle]
    obtain ⟨-, -, -, c4, c5, c6⟩ :=
      checkMatches_establishes { s with currentInput := v }
    unfold statCounters
    rw [c4, c5, c6]
  · intro s v hgrow hnone
    unfold validateAndUpdateInput
    rw [if_neg (not_le.mpr hgrow), hnone]
    obtain ⟨-, -, -, c4, c5, c6⟩ :=
      checkMatches_establishes { s with currentInput := v }
    unfold statCounters
    rw [c4, c5, c6]
  · intro s v i e hgrow hsome he hacc
    unfold validateAndUpdateInput
    rw [if_neg (not_le.mpr hgrow), hsome]
    dsimp only
    rw [he]
    dsimp only
    rw [if_pos hacc]
    obtain ⟨-, -, -, c4, c5, c6⟩ := checkMatches_establishes
      { s with currentInput := v,
               correctInputs := s.correctInputs + 1,
               totalCharactersTyped := s.totalCharactersTyped + 1,
               enemies := s.enemies.set i
                 ((e.hit 1).setTypedChars (normalizeThaana v).length) }
    unfold statCounters
    dsimp only
    rw [c4, c5, c6]
  · intro s v i e hgrow hsome he hrej
    unfold validateAndUpdateInput
    rw [if_neg (not_le.mpr hgrow), hsome]
    dsimp only
    rw [he]
    dsimp only
    rw [if_neg (by simp [hrej])]
    rfl

theorem C10_witness :
    statCounters (validateAndUpdateInput lockedC [0x78A, 0x7AC, 0x782]).1 =
      (lockedC.correctInputs + 1, lockedC.incorrectInputs,
        lockedC.totalCharactersTyped + 1) :=
  C10_statistics_counters.2.2.2.1 lockedC [0x78A, 0x7AC, 0x782] 0
    ({ mkEnemy [0x78A, 0x7AC, 0x782, 0x7B0] 600 (-50) 20 with
       targeted := true, typedChars := 2 })
    (by decide) (by decide) rfl (by decide)

/-- Environment whose word pool holds `'ބަތް'` and `'ބަ'`: the second word is
both a full word and a proper prefix of the first. -/
def envB : Env :=
  { width := 1200, height := 700, innerHeight := 800,
    wordsForWave := fun _ => [[0x784, 0x7A6, 0x78C, 0x7B0], [0x784, 0x7A6]] }

/-- Oracle for the second tick in `envB`: the single enemy sits straight
above the player (dx = 0), at rational distance 670. -/
def oracleB2 : Oracle := { dists := fun _ => 670, spawnR := 1/2, spawnIdx := 1 }

/-- `envB` after one one-second tick: one enemy carrying `'ބަތް'`. -/
def stageB1 : GameState :=
  { stage1 with enemies := [mkEnemy [0x784, 0x7A6, 0x78C, 0x7B0] 600 (-50) 20] }

theorem stageB1_eq : (Game.update oracle0 envB (initState envB 0) 1 0).1 = stageB1 := by
  show (Game.updateWave oracle0 envB
    (enemyLoop oracle0 envB 1 (initState envB 0)
      (initState envB 0).enemies.length).1 1 0).1 = stageB1
  norm_num [Game.updateWave, enemyLoop, initState, Game.spawnEnemy, getRandomWord,
    spawnMaxLength, mkEnemy, envB, getSpawnIntervalForWave, getEnemyCountForWave,
    stageB1, stage1, mkPlayer, oracle0]

/-- `envB` after a further seven-second tick: the first enemy has homed to
y = 90 and a second enemy carrying `'ބަ'` has spawned. -/
def stageB2 : GameState :=
  { stageB1 with
    enemiesSpawnedThisWave := 2,
    enemies := [{ mkEnemy [0x784, 0x7A6, 0x78C, 0x7B0] 600 (-50) 20 with y := 90 },
                mkEnemy [0x784, 0x7A6] 600 (-50) 20] }

theorem stageB2_eq : (Game.update oracleB2 envB stageB1 7 0).1 = stageB2 := by
  show (Game.updateWave oracleB2 envB
    (enemyLoop oracleB2 envB 7 stageB1 stageB1.enemies.length).1 7 0).1 = stageB2
  norm_num [Game.updateWave, enemyLoop, processEnemy, Enemy.update, Enemy.isOffScreen,
    Game.checkCollision, Game.spawnEnemy, getRandomWord, spawnMaxLength, mkEnemy,
    envB, getSpawnIntervalForWave, getEnemyCountForWave, stageB2, stageB1, stage1,
    mkPlayer, oracleB2]

theorem stageB2_reach : Reach envB stageB2 := by
  have h1 : Reach envB stageB1 :=
    stageB1_eq ▸ Reach.step (Reach.init 0)
      (Step.tick (initState envB 0) oracle0 1 0 rfl rfl (by norm_num))
  exact stageB2_eq ▸ Reach.step h1
    (Step.tick stageB1 oracleB2 7 0 rfl rfl (by norm_num))

/-- C6 counterexample: in a reachable state with two live Hostiles whose
targets both extend the buffer `'ބަ'`, the engine does NOT lock the first in
iteration order: the buffer exactly equals the SECOND Hostile's word, so the
scan's exact-match break picks and completes the second one. -/
theorem C6_counterexample :
    Reach envB stageB2 ∧
    stageB2.enemies.length = 2 ∧
    (∀ e ∈ stageB2.enemies,
      (normalizeThaana [0x784, 0x7A6]).isPrefixOf (normalizeThaana e.word) = true) ∧
    ((validateAndUpdateInput stageB2 [0x784, 0x7A6]).1.enemies[0]?.map
        (fun e => e.targeted) = some false) ∧
    ((validateAndUpdateInput stageB2 [0x784, 0x7A6]).1.enemies[1]?.map
        (fun e => e.dying) = some true) ∧
    (validateAndUpdateInput stageB2 [0x784, 0x7A6]).1.score = 20 ∧
    (validateAndUpdateInput stageB2 [0x784, 0x7A6]).1.currentInput = [] := by
  refine ⟨stageB2_reach, ?_, ?_, ?_, ?_, ?_, ?_⟩ <;> decide

/-- C6 amended: on a non-empty buffer the scanning loop locks the first
Hostile in iteration order whose normalized target the normalized buffer
prefixes, EXCEPT that if the buffer exactly equals some Hostile's full
normalized target, the first such exact match is chosen (and completed)
instead; and while a lock is held, an appended keystroke is accepted if and
only if the locked Hostile's own normalized target starts with the
normalized new buffer — the other candidates play no role in that
decision. -/
theorem C6_amended :
    (∀ (inp : Str) (es : List Enemy),
      (scanGo inp es 0 false none).2 =
        match es.findIdx? (fun e => inp == normalizeThaana e.word) with
        | some k => some k
        | none => es.findIdx?
            (fun e => inp.isPrefixOf (normalizeThaana e.word))) ∧
    (∀ (s : GameState) (v : Str) (i : Nat) (e : Enemy),
      s.currentInput.length < v.length →
      s.enemies.findIdx? (fun e => e.targeted) = some i →
      s.enemies[i]? = some e →
      ((validateAndUpdateInput s v).1.correctInputs = s.correctInputs + 1 ↔
        (normalizeThaana v).isPrefixOf (normalizeThaana e.word) = true)) := by
  constructor
  · intro inp es
    exact scanGo_matchedIdx inp es
  · intro s v i e hgrow hsome he
    constructor
    · intro hcorr
      by_contra hrej
      have hrej' : (normalizeThaana v).isPrefixOf (normalizeThaana e.word) = false :=
        Bool.not_eq_true _ ▸ (Bool.eq_false_iff.mpr hrej)
      have := (C3_locked_reject_full_clear hgrow hsome he hrej').1
      rw [this] at hcorr
      unfold InputHandler.clear Game.clearAllTargets at hcorr
      dsimp only at hcorr
      omega
    · intro hacc
      have := C10_statistics_counters.2.2.2.1 s v i e hgrow hsome he hacc
      unfold statCounters at this
      exact congrArg Prod.fst this

theorem C6_amended_witness :
    ((scanGo (normalizeThaana [0x784, 0x7A6]) stageB2.enemies 0 false none).2 =
      match stageB2.enemies.findIdx?
          (fun e => normalizeThaana [0x784, 0x7A6] == normalizeThaana e.word) with
        | some k => some k
        | none => stageB2.enemies.findIdx?
            (fun e => (normalizeThaana [0x784, 0x7A6]).isPrefixOf
              (normalizeThaana e.word))) ∧
    ((validateAndUpdateInput lockedC [0x78A, 0x7AC, 0x782]).1.correctInputs =
        lockedC.correctInputs + 1 ↔
      (normalizeThaana [0x78A, 0x7AC, 0x782]).isPrefixOf
        (normalizeThaana ({ mkEnemy [0x78A, 0x7AC, 0x782, 0x7B0] 600 (-50) 20 with
          targeted := true, typedChars := 2 } : Enemy).word) = true) :=
  ⟨C6_amended.1 (normalizeThaana [0x784, 0x7A6]) stageB2.enemies,
   C6_amended.2 lockedC [0x78A, 0x7AC, 0x782] 0
     ({ mkEnemy [0x78A, 0x7AC, 0x782, 0x7B0] 600 (-50) 20 with
        targeted := true, typedChars := 2 })
     (by decide) (by decide) rfl⟩

/-- `stage1` after the keystroke `'ކ'`: the spawned enemy is locked with one
typed character. -/
def stageC1 : GameState :=
  { stage1 with
    enemies := [{ mkEnemy [0x786, 0x7AA, 0x791, 0x7A6] 600 (-50) 20 with
                  targeted := true, typedChars := 1 }],
    currentInput := [0x786], lastInputLength := 1 }

unseal Rat.add Rat.sub Rat.mul Rat.inv in
theorem stageC1_eq : (validateAndUpdateInput stage1 [0x786]).1 = stageC1 := by
  decide

theorem stageC1_reach : Reach env₀ stageC1 :=
  stageC1_eq ▸ Reach.step stage1_reach (Step.input stage1 [0x786])

/-- Oracle for the collision tick: the locked enemy sits straight above the
player at rational distance 670. -/
def oracleC : Oracle := { dists := fun _ => 670, spawnR := 1/2, spawnIdx := 0 }

/-- The state after the 33-second tick in which the locked enemy homes into
the player: a life is lost and the enemy is dying, but the buffer and the
lock are untouched; a fresh enemy has also spawned. -/
def stageC2 : GameState :=
  { stage1 with
    player := { x := 600, y := 620, size := 25, lives := 2, maxLives := 3 },
    enemiesSpawnedThisWave := 2,
    enemies := [{ mkEnemy [0x786, 0x7AA, 0x791, 0x7A6] 600 (-50) 20 with
                  targeted := true, typedChars := 1, y := 610, dying := true },
                mkEnemy [0x786, 0x7AA, 0x791, 0x7A6] 600 (-50) 20],
    currentInput := [0x786], lastInputLength := 1 }

theorem stageC2_eq :
    Game.update oracleC env₀ stageC1 33 0 = (stageC2, [Cue.damage]) := by
  show (let p := enemyLoop oracleC env₀ 33 stageC1 stageC1.enemies.length
        let q := Game.updateWave oracleC env₀ p.1 33 0
        (q.1, p.2 ++ q.2)) = (stageC2, [Cue.damage])
  norm_num [Game.updateWave, enemyLoop, processEnemy, Enemy.update, Enemy.isOffScreen,
    Game.checkCollision, Enemy.destroy, Player.takeDamage, Player.isAlive,
    Game.spawnEnemy, getRandomWord, spawnMaxLength, mkEnemy, env₀, fallbackWords,
    getSpawnIntervalForWave, getEnemyCountForWave, stageC2, stageC1, stage1, mkPlayer,
    oracleC]

/-- C7 counterexample: a locked, healthy Hostile collides with the Defender
during a tick: the Defender loses a life and the Hostile is forced into
Dying, but the input buffer and the lock are NOT cleared in that processing
step (they are only cleared later, when the dead Hostile is removed). -/
theorem C7_counterexample :
    Reach env₀ stageC1 ∧
    Step env₀ stageC1 (Game.update oracleC env₀ stageC1 33 0).1 ∧
    (stageC1.enemies[0]?.map (fun e => (e.targeted, e.dying)) = some (true, false)) ∧
    stageC1.player.lives = 3 ∧
    stageC1.currentInput = [0x786] ∧
    Game.update oracleC env₀ stageC1 33 0 = (stageC2, [Cue.damage]) ∧
    stageC2.player.lives = 2 ∧
    (stageC2.enemies[0]?.map (fun e => (e.targeted, e.dying)) = some (true, true)) ∧
    stageC2.currentInput = [0x786] :=
  ⟨stageC1_reach,
   Step.tick stageC1 oracleC 33 0 rfl rfl (by norm_num),
   by decide, rfl, rfl, stageC2_eq, rfl, by decide, rfl⟩

/-- C7 amended: (a) when a Hostile crosses the bottom boundary or collides
with the Defender while alive and not already Dying, that processing step
costs the Defender one life (clamped at zero), fires the damage cue and
forces the Hostile into Dying without removing it — the input buffer and
the lock flag are NOT touched in this step; (b) when a (dead) Hostile is
removed while targeted, the buffer is cleared and every lock released;
(c) a Dying Hostile whose death timer completes during the tick becomes
dead, so (b) applies on the tick after its death duration elapses. -/
theorem C7_amended (o : Oracle) (env : Env) (dt : ℚ) (s : GameState) (i : Nat)
    (e0 : Enemy) (he : s.enemies[i]? = some e0) :
    ((e0.update s.player env.innerHeight dt (o.dists i)).alive = true →
     ((e0.update s.player env.innerHeight dt (o.dists i)).isOffScreen
        (env.height + 50) = true ∨
      Game.checkCollision (e0.update s.player env.innerHeight dt (o.dists i))
        s.player = true) →
     (e0.update s.player env.innerHeight dt (o.dists i)).dying = false →
       (processEnemy o env dt s i).1.player.lives =
         (if s.player.lives - 1 < 0 then 0 else s.player.lives - 1) ∧
       Cue.damage ∈ (processEnemy o env dt s i).2 ∧
       (∀ e', (processEnemy o env dt s i).1.enemies[i]? = some e' →
         e'.dying = true ∧ e'.targeted = e0.targeted) ∧
       (processEnemy o env dt s i).1.enemies.length = s.enemies.length ∧
       (processEnemy o env dt s i).1.currentInput = s.currentInput) ∧
    ((e0.update s.player env.innerHeight dt (o.dists i)).alive = false →
     (e0.update s.player env.innerHeight dt (o.dists i)).targeted = true →
       (processEnemy o env dt s i).1.currentInput = [] ∧
       (∀ e' ∈ (processEnemy o env dt s i).1.enemies, e'.targeted = false) ∧
       (processEnemy o env dt s i).1.enemies.length = s.enemies.length - 1) ∧
    (e0.dying = true → e0.deathTimer + dt ≥ e0.deathDuration →
       (e0.update s.player env.innerHeight dt (o.dists i)).alive = false) := by
  have hlt : i < s.enemies.length := by
    by_contra hlen
    rw [List.getElem?_eq_none (Nat.le_of_not_lt hlen)] at he
    exact Option.noConfusion he
  refine ⟨?_, ?_, ?_⟩
  · intro halive hbdry hdying
    unfold processEnemy
    rw [he]
    dsimp only
    rw [if_neg (by simp [halive]), if_pos (by
      constructor
      · rcases hbdry with hb | hb
        · exact Or.inl hb
        · exact Or.inr hb
      · simpa using hdying)]
    have hkey : ∀ e',
        ((s.enemies.set i (e0.update s.player env.innerHeight dt (o.dists i))).set i
          (e0.update s.player env.innerHeight dt (o.dists i)).destroy)[i]? = some e' →
          e'.dying = true ∧ e'.targeted = e0.targeted := by
      intro e' he'
      rw [List.set_set, List.getElem?_set_self (by simpa using hlt)] at he'
      cases he'
      simp
    split
    · exact ⟨rfl, by simp, fun e' he' => hkey e' he', by simp, rfl⟩
    · exact ⟨rfl, by simp, fun e' he' => hkey e' he', by simp, rfl⟩
  · intro hdead htgt
    unfold processEnemy
    rw [he]
    dsimp only
    rw [if_pos (by simp [hdead]), if_pos htgt]
    refine ⟨rfl, ?_, ?_⟩
    · intro e' he'
      have hmem := List.mem_of_mem_eraseIdx he'
      unfold InputHandler.clear Game.clearAllTargets at hmem
      dsimp only at hmem
      obtain ⟨e'', _, rfl⟩ := List.mem_map.mp hmem
      simp
    · unfold InputHandler.clear Game.clearAllTargets
      dsimp only
      rw [List.length_eraseIdx]
      simp [hlt]
  · intro hdying htimer
    unfold Enemy.update
    rw [if_pos hdying, if_pos htimer]

unseal Rat.add Rat.sub Rat.mul Rat.inv in
theorem C7_amended_witness :
    (processEnemy oracleC env₀ 33 stageC1 0).1.player.lives =
      (if stageC1.player.lives - 1 < 0 then 0 else stageC1.player.lives - 1) ∧
    Cue.damage ∈ (processEnemy oracleC env₀ 33 stageC1 0).2 ∧
    (∀ e', (processEnemy oracleC env₀ 33 stageC1 0).1.enemies[0]? = some e' →
      e'.dying = true ∧
      e'.targeted = ({ mkEnemy [0x786, 0x7AA, 0x791, 0x7A6] 600 (-50) 20 with
        targeted := true, typedChars := 1 } : Enemy).targeted) ∧
    (processEnemy oracleC env₀ 33 stageC1 0).1.enemies.length =
      stageC1.enemies.length ∧
    (processEnemy oracleC env₀ 33 stageC1 0).1.currentInput =
      stageC1.currentInput :=
  (C7_amended oracleC env₀ 33 stageC1 0
    ({ mkEnemy [0x786, 0x7AA, 0x791, 0x7A6] 600 (-50) 20 with
       targeted := true, typedChars := 1 }) rfl).1
    (by decide) (by decide) (by decide)

/-- Environment whose word pool holds only `'ދިވެހި'` (6 letters): the wave-1
length filter empties the pool, so `getRandomWord` falls back to the full
list and spawns the 6-letter word. -/
def envA : Env :=
  { width := 1200, height := 700, innerHeight := 800,
    wordsForWave := fun _ => [[0x78B, 0x7A8, 0x788, 0x7AC, 0x780, 0x7A8]] }

/-- `envA` after one one-second tick: one enemy carrying `'ދިވެހި'` with
health 6. -/
def stageA1 : GameState :=
  { stage1 with
    enemies := [mkEnemy [0x78B, 0x7A8, 0x788, 0x7AC, 0x780, 0x7A8] 600 (-50) 20] }

theorem stageA1_eq : (Game.update oracle0 envA (initState envA 0) 1 0).1 = stageA1 := by
  show (Game.updateWave oracle0 envA
    (enemyLoop oracle0 envA 1 (initState envA 0)
      (initState envA 0).enemies.length).1 1 0).1 = stageA1
  norm_num [Game.updateWave, enemyLoop, initState, Game.spawnEnemy, getRandomWord,
    spawnMaxLength, mkEnemy, envA, getSpawnIntervalForWave, getEnemyCountForWave,
    stageA1, stage1, mkPlayer, oracle0]

theorem stageA1_reach : Reach envA stageA1 :=
  stageA1_eq ▸ Reach.step (Reach.init 0)
    (Step.tick (initState envA 0) oracle0 1 0 rfl rfl (by norm_num))

/-- C5 counterexample (Scenario A): an enemy with the 6-letter word
`'ދިވެހި'` and health 6 is typed out from an empty buffer.  The first
keystroke only establishes the lock (no damage), so after 5 keystrokes the
health is 2 — not 1 — and Completion on the 6th keystroke happens with
health 1: the health never reaches 0; the enemy dies by the explicit
`destroy()` on completion, with score += 60 and the buffer cleared. -/
theorem C5_counterexample :
    Reach envA stageA1 ∧
    (stageA1.enemies[0]?.map (fun e => (e.word, e.health))) =
      some ([0x78B, 0x7A8, 0x788, 0x7AC, 0x780, 0x7A8], 6) ∧
    ((List.range 7).map (fun k =>
        ((feedChars stageA1
          ([0x78B, 0x7A8, 0x788, 0x7AC, 0x780, 0x7A8].take k)).enemies[0]?.map
          (fun e => e.health))) =
      [some 6, some 6, some 5, some 4, some 3, some 2, some 1]) ∧
    ((feedChars stageA1
        ([0x78B, 0x7A8, 0x788, 0x7AC, 0x780, 0x7A8].take 5)).enemies[0]?.map
        (fun e => e.dying) = some false) ∧
    ((feedChars stageA1
        [0x78B, 0x7A8, 0x788, 0x7AC, 0x780, 0x7A8]).enemies[0]?.map
        (fun e => (e.dying, e.targeted)) = some (true, false)) ∧
    (feedChars stageA1 [0x78B, 0x7A8, 0x788, 0x7AC, 0x780, 0x7A8]).score = 60 ∧
    (feedChars stageA1 [0x78B, 0x7A8, 0x788, 0x7AC, 0x780, 0x7A8]).currentInput = [] := by
  refine ⟨stageA1_reach, ?_, ?_, ?_, ?_, ?_, ?_⟩ <;> decide

instance (s : Str) : Decidable (ThaanaStr s) :=
  inferInstanceAs (Decidable (∀ c ∈ s, 0x780 ≤ c ∧ c ≤ 0x7BF))

theorem length_eq_of_getElem?_none_iff {l1 l2 : List Enemy}
    (h : ∀ j : Nat, (l1[j]? = none ↔ l2[j]? = none)) : l1.length = l2.length := by
  rcases Nat.lt_trichotomy l1.length l2.length with hlt | he | hlt
  · have h1 : l1[l1.length]? = none := List.getElem?_eq_none (Nat.le_refl _)
    rw [h l1.length, List.getElem?_eq_getElem hlt] at h1
    exact Option.noConfusion h1
  · exact he
  · have h1 : l2[l2.length]? = none := List.getElem?_eq_none (Nat.le_refl _)
    rw [← h l2.length, List.getElem?_eq_getElem hlt] at h1
    exact Option.noConfusion h1

theorem getElem_of_getElem? {l : List Enemy} {j : Nat} {e : Enemy} (hj : j < l.length)
    (h : l[j]? = some e) : l[j] = e := by
  rw [List.getElem?_eq_getElem hj] at h
  exact Option.some.inj h

theorem isPrefixOf_append_right (p t : Str) : p.isPrefixOf (p ++ t) = true := by
  rw [List.isPrefixOf_iff_prefix]
  exact ⟨t, rfl⟩

theorem isPrefixOf_append_false {p w : Str} {c : Nat}
    (h : p.isPrefixOf w = false) : (p ++ [c]).isPrefixOf w = false := by
  by_contra hc
  rw [Bool.not_eq_false, List.isPrefixOf_iff_prefix] at hc
  have hp2 : p <+: w := List.IsPrefix.trans ⟨[c], rfl⟩ hc
  rw [← List.isPrefixOf_iff_prefix] at hp2
  simp [h] at hp2

theorem findIdx_targeted_of_only {s : GameState} {i : Nat} (hi : i < s.enemies.length)
    (ht : (s.enemies[i]).targeted = true)
    (honly : ∀ j (hj : j < s.enemies.length), (s.enemies[j]).targeted = true → j = i) :
    s.enemies.findIdx? (fun e => e.targeted) = some i := by
  rw [List.findIdx?_eq_some_iff_getElem]
  refine ⟨hi, ht, ?_⟩
  intro j hji
  simp only [Bool.not_eq_true]
  by_contra hc
  rw [Bool.not_eq_false] at hc
  exact absurd (honly j (Nat.lt_trans hji hi) hc) (Nat.ne_of_lt hji)

/-- C5 (amended): for a locked Hostile whose lock is exclusive, with the
buffer a proper prefix of its word, appending the exact remaining suffix
character by character always reaches Completion — provided no earlier
enemy's normalized word has the buffer as a prefix and no other enemy's
full normalized word is a longer prefix of the locked word (otherwise the
re-match after an accepted keystroke could move or steal the lock).  Each
accepted character applies one unit of damage, so Completion happens with
health `initial - suffix length` (still positive when the initial health equals
the word length: the first, lock-establishing keystroke deals no damage);
the Hostile dies by the explicit destroy of `handleCompleteMatch`, which
also awards `word.length * 10` points and clears buffer and every lock. -/
theorem C5_amended (rest : Str) :
    ∀ (s : GameState) (i : Nat) (p : Str) (hi : i < s.enemies.length),
      (s.enemies[i]).targeted = true →
      (∀ j (hj : j < s.enemies.length), (s.enemies[j]).targeted = true → j = i) →
      s.currentInput = p →
      s.lastInputLength = p.length →
      (s.enemies[i]).word = p ++ rest →
      rest ≠ [] →
      (∀ j (hj : j < s.enemies.length), ThaanaStr ((s.enemies[j]).word)) →
      ThaanaStr p →
      (∀ j (hj : j < s.enemies.length), j < i →
        p.isPrefixOf (normalizeThaana ((s.enemies[j]).word)) = false) →
      (∀ j (hj : j < s.enemies.length), j ≠ i →
        (normalizeThaana ((s.enemies[j]).word)).isPrefixOf ((s.enemies[i]).word) = true →
        (normalizeThaana ((s.enemies[j]).word)).length ≤ p.length) →
      (feedChars s rest).score = s.score + (((s.enemies[i]).word.length : Int)) * 10 ∧
      (feedChars s rest).currentInput = [] ∧
      (∀ e ∈ (feedChars s rest).enemies, e.targeted = false) ∧
      (feedChars s rest).enemies.length = s.enemies.length ∧
      ∀ e, (feedChars s rest).enemies[i]? = some e →
        e.dying = true ∧ e.health = (s.enemies[i]).health - (rest.length : Int) := by
  induction rest with
  | nil =>
    intro s i p hi ht honly hcur hlast hword hne
    exact absurd rfl hne
  | cons c rest2 ih =>
    intro s i p hi ht honly hcur hlast hword _hne hthw hpth hfirst hnohijack
    subst hcur
    have hThW : ThaanaStr ((s.enemies[i]).word) := hthw i hi
    have hcth : 0x780 ≤ c ∧ c ≤ 0x7BF := by
      apply hThW
      rw [hword]
      exact List.mem_append_right _ (List.mem_cons_self _ _)
    have hvth : ThaanaStr (s.currentInput ++ [c]) := by
      intro d hd
      rcases List.mem_append.mp hd with hd1 | hd2
      · exact hpth d hd1
      · rw [List.mem_singleton] at hd2
        subst hd2
        exact hcth
    have hnv : normalizeThaana (s.currentInput ++ [c]) = s.currentInput ++ [c] :=
      normalizeThaana_of_thaana hvth
    have hnw : normalizeThaana ((s.enemies[i]).word) = (s.enemies[i]).word :=
      normalizeThaana_of_thaana hThW
    have hfind : s.enemies.findIdx? (fun e => e.targeted) = some i :=
      findIdx_targeted_of_only hi ht honly
    have hgrow : s.currentInput.length < (s.currentInput ++ [c]).length := by simp
    have he0 : s.enemies[i]? = some (s.enemies[i]) := List.getElem?_eq_getElem hi
    have hacc : (normalizeThaana (s.currentInput ++ [c])).isPrefixOf
        (normalizeThaana ((s.enemies[i]).word)) = true := by
      rw [hnv, hnw, hword, List.isPrefixOf_iff_prefix]
      exact ⟨rest2, (List.append_cons _ _ _).symm⟩
    set eH : Enemy := ((s.enemies[i]).hit 1).setTypedChars
        (normalizeThaana (s.currentInput ++ [c])).length with heH
    set sA : GameState :=
      { s with currentInput := s.currentInput ++ [c],
               correctInputs := s.correctInputs + 1,
               totalCharactersTyped := s.totalCharactersTyped + 1,
               enemies := s.enemies.set i eH } with hsA
    have hval : (validateAndUpdateInput s (s.currentInput ++ [c])).1 =
        (checkMatches sA).1 := by
      unfold validateAndUpdateInput
      rw [if_neg (not_le.mpr hgrow), hfind]
      dsimp only
      rw [he0]
      dsimp only
      rw [if_pos hacc]
    have hAcur : sA.currentInput = s.currentInput ++ [c] := by rw [hsA]
    have hAen : sA.enemies = s.enemies.set i eH := by rw [hsA]
    have hAlen : sA.enemies.length = s.enemies.length := by
      rw [hAen, List.length_set]
    have hAi : sA.enemies[i]? = some eH := by
      rw [hAen]
      exact List.getElem?_set_self hi
    have hAj : ∀ j, j ≠ i → sA.enemies[j]? = s.enemies[j]? := by
      intro j hj
      rw [hAen, List.getElem?_set_ne (Ne.symm hj)]
    have hAne : sA.currentInput ≠ [] := by
      rw [hAcur]
      simp
    have hwE : eH.word = (s.enemies[i]).word := by
      rw [heH]
      simp
    have hstep0 : feedChars s (c :: rest2) =
        feedChars (validateAndUpdateInput s (s.currentInput ++ [c])).1 rest2 := rfl
    have hcm := checkMatches_nonempty (s := sA) hAne
    rw [hAcur, hnv] at hcm
    by_cases hrest : rest2 = []
    · -- final character: exact match, Completion
      subst hrest
      have hgi : sA.enemies[i] = eH :=
        getElem_of_getElem? (by rw [hAlen]; exact hi) hAi
      have hexact : sA.enemies.findIdx?
          (fun e => (s.currentInput ++ [c]) == normalizeThaana e.word) = some i := by
        rw [List.findIdx?_eq_some_iff_getElem]
        refine ⟨by rw [hAlen]; exact hi, ?_, ?_⟩
        · simp only [hgi, hwE, hnw, hword, hnv, beq_self_eq_true]
        · intro j hji
          simp only [Bool.not_eq_true]
          have hjlen : j < s.enemies.length := Nat.lt_trans hji hi
          have hgj : sA.enemies[j] = s.enemies[j] := by
            apply getElem_of_getElem? (by rw [hAlen]; exact hjlen)
            rw [hAj j (Nat.ne_of_lt hji)]
            exact List.getElem?_eq_getElem hjlen
          simp only [hgj]
          rw [beq_eq_false_iff_ne]
          intro hq
          have hf := hfirst j hjlen hji
          rw [← hq] at hf
          rw [isPrefixOf_append_right] at hf
          exact Bool.noConfusion hf
      have hmi : matchedIdx (s.currentInput ++ [c]) sA.enemies = some i := by
        unfold matchedIdx
        rw [hexact]
      rw [hmi] at hcm
      have hloop := targetLoop_some_exact (s.currentInput ++ [c])
        (List.range sA.enemies.length) sA i eH (List.nodup_range _)
        (List.mem_range.mpr (by rw [hAlen]; exact hi)) hAi
        (by rw [hwE, hnw, hword])
      rw [hloop] at hcm
      dsimp only at hcm
      have hfin : (validateAndUpdateInput s (s.currentInput ++ [c])).1 =
          { s with
            currentInput := [],
            lastInputLength := 0,
            correctInputs := s.correctInputs + 1,
            totalCharactersTyped := s.totalCharactersTyped + 1,
            score := s.score + ((eH.word.length : Int)) * 10,
            enemies := (sA.enemies.set i
              (((eH.setTargeted true).setTypedChars
                (s.currentInput ++ [c]).length).destroy)).map
              (fun e => e.setTargeted false) } := by
        rw [hval, hcm]
        rfl
      rw [hstep0]
      rw [show feedChars (validateAndUpdateInput s (s.currentInput ++ [c])).1 [] =
          (validateAndUpdateInput s (s.currentInput ++ [c])).1 from rfl, hfin]
      have hDe : ((sA.enemies.set i
          (((eH.setTargeted true).setTypedChars
            (s.currentInput ++ [c]).length).destroy)).map
          (fun e => e.setTargeted false))[i]? =
          some ((((eH.setTargeted true).setTypedChars
            (s.currentInput ++ [c]).length).destroy).setTargeted false) := by
        rw [List.getElem?_map, List.getElem?_set_self (by rw [hAlen]; exact hi)]
        rfl
      refine ⟨?_, rfl, ?_, ?_, ?_⟩
      · dsimp only
        rw [hwE]
      · intro e2 he2
        dsimp only at he2
        obtain ⟨e3, he3, rfl⟩ := List.mem_map.mp he2
        simp
      · dsimp only
        rw [List.length_map, List.length_set, hAlen]
      · intro e2 he2
        dsimp only at he2
        rw [hDe] at he2
        obtain rfl := Option.some.inj he2
        refine ⟨by simp, ?_⟩
        simp only [Enemy.setTargeted_health, Enemy.destroy_health,
          Enemy.setTypedChars_health, heH, Enemy.hit_health, List.length_cons,
          List.length_nil]
        push_cast
        ring
    · -- intermediate character: lock retained on enemy i, recurse
      have hr2pos : 0 < rest2.length := List.length_pos.mpr hrest
      have hlenw : ((s.enemies[i]).word).length
          = s.currentInput.length + 1 + rest2.length := by
        rw [hword]
        simp [List.length_append, List.length_cons]
        omega
      have hneqw : ∀ e2, sA.enemies[i]? = some e2 →
          s.currentInput ++ [c] ≠ normalizeThaana e2.word := by
        intro e2 he2
        rw [hAi] at he2
        obtain rfl := Option.some.inj he2
        rw [hwE, hnw]
        intro hq
        apply_fun List.length at hq
        rw [List.length_append] at hq
        rw [hlenw] at hq
        simp only [List.length_cons, List.length_nil] at hq
        omega
      have hnoex : sA.enemies.findIdx?
          (fun e => (s.currentInput ++ [c]) == normalizeThaana e.word) = none := by
        rw [List.findIdx?_eq_none_iff]
        intro e2 he2
        obtain ⟨j, hj⟩ := List.mem_iff_getElem?.mp he2
        rcases eq_or_ne j i with rfl | hji
        · rw [hAi] at hj
          obtain rfl := Option.some.inj hj
          simp only [beq_eq_false_iff_ne, ne_eq]
          exact hneqw eH hAi
        · have hjlen : j < s.enemies.length := by
            have hj2 : j < sA.enemies.length := by
              by_contra hh
              rw [List.getElem?_eq_none (Nat.le_of_not_lt hh)] at hj
              exact Option.noConfusion hj
            rw [hAlen] at hj2
            exact hj2
          rw [hAj j hji, List.getElem?_eq_getElem hjlen] at hj
          obtain rfl := Option.some.inj hj
          simp only [beq_eq_false_iff_ne, ne_eq]
          intro hq
          have hpre2 : (normalizeThaana ((s.enemies[j]).word)).isPrefixOf
              ((s.enemies[i]).word) = true := by
            rw [← hq, hword, List.isPrefixOf_iff_prefix]
            exact ⟨rest2, (List.append_cons _ _ _).symm⟩
          have hle := hnohijack j hjlen hji hpre2
          rw [← hq, List.length_append] at hle
          simp at hle
      have hpref2 : sA.enemies.findIdx?
          (fun e => (s.currentInput ++ [c]).isPrefixOf (normalizeThaana e.word)) =
          some i := by
        rw [List.findIdx?_eq_some_iff_getElem]
        refine ⟨by rw [hAlen]; exact hi, ?_, ?_⟩
        · have hgi : sA.enemies[i] = eH :=
            getElem_of_getElem? (by rw [hAlen]; exact hi) hAi
          simp only [hgi, hwE, hnw]
          rw [hword, List.isPrefixOf_iff_prefix]
          exact ⟨rest2, (List.append_cons _ _ _).symm⟩
        · intro j hji
          simp only [Bool.not_eq_true]
          have hjlen : j < s.enemies.length := Nat.lt_trans hji hi
          have hgj : sA.enemies[j] = s.enemies[j] := by
            apply getElem_of_getElem? (by rw [hAlen]; exact hjlen)
            rw [hAj j (Nat.ne_of_lt hji)]
            exact List.getElem?_eq_getElem hjlen
          simp only [hgj]
          exact isPrefixOf_append_false (hfirst j hjlen hji)
      have hmi : matchedIdx (s.currentInput ++ [c]) sA.enemies = some i := by
        unfold matchedIdx
        rw [hnoex]
        dsimp only
        exact hpref2
      rw [hmi] at hcm
      obtain ⟨es2, h1, h2⟩ := targetLoop_some_noexact (s.currentInput ++ [c]) i
        (List.range sA.enemies.length) sA hneqw
      rw [h1] at hcm
      dsimp only at hcm
      set s1 : GameState :=
        { s with
          currentInput := s.currentInput ++ [c],
          lastInputLength := (s.currentInput ++ [c]).length,
          correctInputs := s.correctInputs + 1,
          totalCharactersTyped := s.totalCharactersTyped + 1,
          enemies := es2 } with hs1
      have hfin : (validateAndUpdateInput s (s.currentInput ++ [c])).1 = s1 := by
        rw [hval, hcm, hs1]
      have hs1en : s1.enemies = es2 := by rw [hs1]
      have hlen2 : es2.length = s.enemies.length := by
        have h3 : es2.length = sA.enemies.length := by
          apply length_eq_of_getElem?_none_iff
          intro j
          rw [h2 j]
          by_cases hj : j ∈ List.range sA.enemies.length
          · rw [if_pos hj]
            exact Option.map_eq_none'
          · rw [if_neg hj]
        rw [h3, hAlen]
      have hi1 : i < s1.enemies.length := by
        rw [hs1en, hlen2]
        exact hi
      set e1 : Enemy := (eH.setTargeted true).setTypedChars
          (s.currentInput ++ [c]).length with he1
      have hesI : es2[i]? = some e1 := by
        rw [h2 i, if_pos (List.mem_range.mpr (by rw [hAlen]; exact hi)), hAi, he1]
        simp
      have hesN : ∀ j (hj : j < s.enemies.length), j ≠ i →
          es2[j]? = some ((s.enemies[j]).setTargeted false) := by
        intro j hj hne2
        rw [h2 j, if_pos (List.mem_range.mpr (by rw [hAlen]; exact hj)),
          hAj j hne2, List.getElem?_eq_getElem hj]
        simp [hne2]
      have hgI : s1.enemies[i] = e1 := by
        apply getElem_of_getElem? hi1
        rw [hs1en]
        exact hesI
      have ht1 : (s1.enemies[i]).targeted = true := by
        rw [hgI, he1]
        simp
      have honly1 : ∀ j (hj : j < s1.enemies.length),
          (s1.enemies[j]).targeted = true → j = i := by
        intro j hj htj
        by_contra hne2
        have hjlen : j < s.enemies.length := by
          rw [hs1en, hlen2] at hj
          exact hj
        have hgj : s1.enemies[j] = (s.enemies[j]).setTargeted false := by
          apply getElem_of_getElem? hj
          rw [hs1en]
          exact hesN j hjlen hne2
        rw [hgj] at htj
        simp at htj
      have hcur1 : s1.currentInput = s.currentInput ++ [c] := by rw [hs1]
      have hlast1 : s1.lastInputLength = (s.currentInput ++ [c]).length := by rw [hs1]
      have hword1 : (s1.enemies[i]).word = (s.currentInput ++ [c]) ++ rest2 := by
        rw [hgI, he1]
        simp only [Enemy.setTypedChars_word, Enemy.setTargeted_word]
        rw [hwE, hword, List.append_cons]
      have hthw1 : ∀ j (hj : j < s1.enemies.length),
          ThaanaStr ((s1.enemies[j]).word) := by
        intro j hj
        have hjlen : j < s.enemies.length := by
          rw [hs1en, hlen2] at hj
          exact hj
        rcases eq_or_ne j i with rfl | hne2
        · have hgj : s1.enemies[j] = e1 := by
            apply getElem_of_getElem? hj
            rw [hs1en]
            exact hesI
          rw [hgj, he1]
          simp only [Enemy.setTypedChars_word, Enemy.setTargeted_word]
          rw [hwE]
          exact hThW
        · have hgj : s1.enemies[j] = (s.enemies[j]).setTargeted false := by
            apply getElem_of_getElem? hj
            rw [hs1en]
            exact hesN j hjlen hne2
          rw [hgj]
          simp only [Enemy.setTargeted_word]
          exact hthw j hjlen
      have hfirst1 : ∀ j (hj : j < s1.enemies.length), j < i →
          (s.currentInput ++ [c]).isPrefixOf
            (normalizeThaana ((s1.enemies[j]).word)) = false := by
        intro j hj hji
        have hjlen : j < s.enemies.length := by
          rw [hs1en, hlen2] at hj
          exact hj
        have hgj : s1.enemies[j] = (s.enemies[j]).setTargeted false := by
          apply getElem_of_getElem? hj
          rw [hs1en]
          exact hesN j hjlen (Nat.ne_of_lt hji)
        rw [hgj]
        simp only [Enemy.setTargeted_word]
        exact isPrefixOf_append_false (hfirst j hjlen hji)
      have hnohijack1 : ∀ j (hj : j < s1.enemies.length), j ≠ i →
          (normalizeThaana ((s1.enemies[j]).word)).isPrefixOf
            ((s1.enemies[i]).word) = true →
          (normalizeThaana ((s1.enemies[j]).word)).length ≤
            (s.currentInput ++ [c]).length := by
        intro j hj hne2 hpr
        have hjlen : j < s.enemies.length := by
          rw [hs1en, hlen2] at hj
          exact hj
        have hgj : s1.enemies[j] = (s.enemies[j]).setTargeted false := by
          apply getElem_of_getElem? hj
          rw [hs1en]
          exact hesN j hjlen hne2
        rw [hgj, hword1] at hpr
        simp only [Enemy.setTargeted_word] at hpr
        have hpr2 : (normalizeThaana ((s.enemies[j]).word)).isPrefixOf
            ((s.enemies[i]).word) = true := by
          rw [hword, List.append_cons]
          exact hpr
        have hle := hnohijack j hjlen hne2 hpr2
        rw [hgj]
        simp only [Enemy.setTargeted_word]
        exact le_trans hle (by simp)
      obtain ⟨ihs, ihc, iht, ihl, ihh⟩ := ih s1 i (s.currentInput ++ [c]) hi1 ht1
        honly1 hcur1 hlast1 hword1 hrest hthw1 hvth hfirst1 hnohijack1
      rw [hstep0, hfin]
      refine ⟨?_, ihc, iht, ?_, ?_⟩
      · rw [ihs]
        have hsc : s1.score = s.score := by rw [hs1]
        rw [hsc, hword1, ← List.append_cons, hword]
      · rw [ihl, hs1en, hlen2]
      · intro e2 he2
        obtain ⟨hd, hh⟩ := ihh e2 he2
        refine ⟨hd, ?_⟩
        rw [hh, hgI, he1]
        simp only [Enemy.setTypedChars_health, Enemy.setTargeted_health, heH,
          Enemy.hit_health, List.length_cons]
        push_cast
        ring

/-- A concrete locked configuration: one enemy carrying `'ބަ'` (2 letters,
health 2) is locked with buffer `'ބ'`. -/
def lockedA : GameState :=
  { stage1 with
    enemies := [{ mkEnemy [0x784, 0x7A6] 600 (-50) 20 with
                  targeted := true, typedChars := 1 }],
    currentInput := [0x784], lastInputLength := 1 }

theorem C5_amended_witness :
    (feedChars lockedA [0x7A6]).score = 20 ∧
    (feedChars lockedA [0x7A6]).currentInput = [] ∧
    (∀ e ∈ (feedChars lockedA [0x7A6]).enemies, e.targeted = false) ∧
    (feedChars lockedA [0x7A6]).enemies.length = 1 ∧
    ∀ e, (feedChars lockedA [0x7A6]).enemies[0]? = some e →
      e.dying = true ∧ e.health = 1 := by
  obtain ⟨h1, h2, h3, h4, h5⟩ :=
    C5_amended [0x7A6] lockedA 0 [0x784] (by decide) (by decide) (by decide) rfl rfl
      (by decide) (by decide) (by decide) (by decide) (by decide) (by decide)
  refine ⟨?_, h2, h3, ?_, ?_⟩
  · rw [h1]
    decide
  · rw [h4]
    decide
  · intro e he
    obtain ⟨hd, hh⟩ := h5 e he
    refine ⟨hd, ?_⟩
    rw [hh]
    decide
